import Mathlib

/-!
Shallow embedding of the VSFS journaled file system
(`Project/journal.c`, `Project/mkfs.c`, `Project/validator.c`).

The disk image is modelled as a total function from byte addresses to
stored bytes; every read normalizes the stored value modulo 256, matching
the `uint8_t` views the C code takes of its buffers.  All multi-byte
on-disk fields are little endian, as on the x86 hosts the code targets
(the C code reinterprets packed structs over raw buffers).
-/

namespace VSFS

/-- A disk image: byte address to stored byte (reads normalize mod 256). -/
abbrev Disk := Nat → Nat

/-- Read one byte (`uint8_t`) at address `a`. -/
def byteAt (d : Disk) (a : Nat) : Nat := d a % 256

/-- Little-endian 16-bit value assembled from two bytes. -/
def le16 (b0 b1 : Nat) : Nat := b0 % 256 + 256 * (b1 % 256)

/-- Little-endian 32-bit value assembled from four bytes. -/
def le32 (b0 b1 b2 b3 : Nat) : Nat :=
  b0 % 256 + 256 * (b1 % 256) + 65536 * (b2 % 256) + 16777216 * (b3 % 256)

/-- Byte `k` of the little-endian encoding of `v`. -/
def le32byte (v k : Nat) : Nat := v / 256 ^ k % 256

/-- Overwrite `len` bytes starting at byte offset `off` with `src`
(`src` indexed from 0).  Models a successful `write`/`pwrite` of a buffer. -/
def writeBytesF (d : Disk) (off len : Nat) (src : Nat → Nat) : Disk :=
  fun a => if off ≤ a ∧ a < off + len then src (a - off) else d a

/-- The 4096-byte block `b` of the image as a byte function
(`read_block` in `journal.c`, `pread_block` in `validator.c`). -/
def blockFn (d : Disk) (b : Nat) : Nat → Nat := fun o => byteAt d (b * 4096 + o)

/-- `struct superblock` of `journal.c`/`mkfs.c`/`validator.c` (128 bytes,
nine packed `uint32_t` fields then padding). -/
structure SB where
  magic : Nat
  block_size : Nat
  total_blocks : Nat
  inode_count : Nat
  journal_block : Nat
  inode_bitmap : Nat
  data_bitmap : Nat
  inode_start : Nat
  data_start : Nat
  deriving Repr, DecidableEq

/-- Parse the superblock from block 0, as `main` in `journal.c` does
(`memcpy(&sb, temp_sb_buf, sizeof(struct superblock))`). -/
def parseSB (d : Disk) : SB :=
  { magic := le32 (byteAt d 0) (byteAt d 1) (byteAt d 2) (byteAt d 3)
    block_size := le32 (byteAt d 4) (byteAt d 5) (byteAt d 6) (byteAt d 7)
    total_blocks := le32 (byteAt d 8) (byteAt d 9) (byteAt d 10) (byteAt d 11)
    inode_count := le32 (byteAt d 12) (byteAt d 13) (byteAt d 14) (byteAt d 15)
    journal_block := le32 (byteAt d 16) (byteAt d 17) (byteAt d 18) (byteAt d 19)
    inode_bitmap := le32 (byteAt d 20) (byteAt d 21) (byteAt d 22) (byteAt d 23)
    data_bitmap := le32 (byteAt d 24) (byteAt d 25) (byteAt d 26) (byteAt d 27)
    inode_start := le32 (byteAt d 28) (byteAt d 29) (byteAt d 30) (byteAt d 31)
    data_start := le32 (byteAt d 32) (byteAt d 33) (byteAt d 34) (byteAt d 35) }

/-- `FS_MAGIC` (0x56534653, "VSFS"). -/
def FS_MAGIC : Nat := 0x56534653

/-- `JOURNAL_MAGIC` (0x4A524E4C, "JRNL"). -/
def JOURNAL_MAGIC : Nat := 0x4A524E4C

/-! ## Journal installer (`do_install`, journal.c lines 114-207)

`do_install` first copies the 16 journal blocks into `jbuf`; the record
scan reads from that snapshot while committed writes go to the disk, and
data-record payloads are pointers into the snapshot.  We model the
snapshot as `j off = byteAt disk (journal_block * 4096 + off)` (the disk
value before any write of this call), the scan as a fuel-indexed
recursion (the C `while` loop has no a-priori bound: a record whose
declared size is 0 does not advance `pos`, so the loop need not
terminate — `none` means the fuel ran out, i.e. no terminating execution
of that many iterations exists), and the pending-write list as a list of
`(target block, payload offset in the snapshot)` pairs. -/

/-- The record scan of `do_install` (journal.c lines 152-192).
`pos` is the byte position in the journal snapshot `j`, `used` is
`jh->nbytes_used`.  A Data record (`type = 1`) whose declared size is
exactly `sizeof(struct data_record) = 4104` is buffered onto `pending`;
a Commit record (`type = 2`) moves the buffered writes onto `applied`
(the C applies them to disk at that point; order is preserved).
Every record advances `pos` by its declared size. -/
def scanJournal (j : Nat → Nat) (used : Nat) :
    Nat → Nat → List (Nat × Nat) → List (Nat × Nat) → Option (List (Nat × Nat))
  | 0, _, _, _ => none
  | fuel+1, pos, pending, applied =>
    if pos + 4 ≤ used then
      if used < pos + le16 (j (pos+2)) (j (pos+3)) then some applied
      else if le16 (j pos) (j (pos+1)) = 1 then
        if le16 (j (pos+2)) (j (pos+3)) = 4104 then
          scanJournal j used fuel (pos + le16 (j (pos+2)) (j (pos+3)))
            (pending ++ [(le32 (j (pos+4)) (j (pos+5)) (j (pos+6)) (j (pos+7)), pos + 8)])
            applied
        else
          scanJournal j used fuel (pos + le16 (j (pos+2)) (j (pos+3))) pending applied
      else if le16 (j pos) (j (pos+1)) = 2 then
        scanJournal j used fuel (pos + le16 (j (pos+2)) (j (pos+3))) [] (applied ++ pending)
      else
        scanJournal j used fuel (pos + le16 (j (pos+2)) (j (pos+3))) pending applied
    else some applied

/-- Byte `off` of the cleared journal image `do_install` writes back:
`memset(jbuf, 0, jsize)` then magic = "JRNL" and `nbytes_used = 8`
(journal.c lines 195-198). -/
def emptyJournalByte (off : Nat) : Nat :=
  if off = 0 then 0x4C else if off = 1 then 0x4E
  else if off = 2 then 0x52 else if off = 3 then 0x4A
  else if off = 4 then 8 else 0

/-- Overwrite the 16 journal blocks with the cleared image
(journal.c lines 200-203). -/
def clearJournal (sb : SB) (d : Disk) : Disk :=
  writeBytesF d (sb.journal_block * 4096) 65536 emptyJournalByte

/-- Apply the writes a Commit released: each `(bno, off)` pair writes the
4096 payload bytes at snapshot offset `off` to block `bno`, but only when
`bno < sb.total_blocks` (journal.c lines 182-187). -/
def applyPending (sb : SB) (j : Nat → Nat) (ws : List (Nat × Nat)) (d : Disk) : Disk :=
  ws.foldl
    (fun acc w =>
      if w.1 < sb.total_blocks then
        writeBytesF acc (w.1 * 4096) 4096 (fun o => j (w.2 + o))
      else acc)
    d

/-- `do_install` (journal.c lines 114-207).  Returns `none` when the scan
does not terminate within `fuel` iterations (the only unbounded step);
otherwise `some` of the resulting disk. -/
def do_install (sb : SB) (fuel : Nat) (disk : Disk) : Option Disk :=
  let j : Nat → Nat := fun off => byteAt disk (sb.journal_block * 4096 + off)
  if le32 (j 0) (j 1) (j 2) (j 3) ≠ JOURNAL_MAGIC then some disk
  else if le32 (j 4) (j 5) (j 6) (j 7) ≤ 8 then some disk
  else
    match scanJournal j (le32 (j 4) (j 5) (j 6) (j 7)) fuel 8 [] [] with
    | none => none
    | some applied => some (clearJournal sb (applyPending sb j applied disk))

/-- The journal header magic as `do_install` reads it. -/
def jMagic (sb : SB) (d : Disk) : Nat :=
  le32 (byteAt d (sb.journal_block * 4096)) (byteAt d (sb.journal_block * 4096 + 1))
    (byteAt d (sb.journal_block * 4096 + 2)) (byteAt d (sb.journal_block * 4096 + 3))

/-- The journal header `nbytes_used` as `do_install` reads it. -/
def jUsed (sb : SB) (d : Disk) : Nat :=
  le32 (byteAt d (sb.journal_block * 4096 + 4)) (byteAt d (sb.journal_block * 4096 + 5))
    (byteAt d (sb.journal_block * 4096 + 6)) (byteAt d (sb.journal_block * 4096 + 7))

/-- Running the `install` command on an image: `main` parses the
superblock from block 0 and calls `do_install`. -/
def installImage (fuel : Nat) (d : Disk) : Option Disk :=
  do_install (parseSB d) fuel d

/-! ## Transaction builder (`do_create`, journal.c lines 212-352)

`do_create` is modelled with an I/O fault oracle: `oracle n = true`
means the n-th `read`/`write` data-transfer syscall of this invocation
fails (returns a short count or an error).  `read_block` checks its
transfers and calls `exit(1)` on any failure (journal.c lines 75-96), so
a faulted `read_block` yields `.fatal`.  The raw 8-byte journal-header
`read` at journal.c line 296 is checked but merely `return`s on failure
(`.silentReturn`); the raw `write` calls for journal records, the commit
record and the updated header (journal.c lines 317-349) never check
their return value, so a faulted one simply transfers nothing and the
function carries on.  A run with the all-false oracle is a run in which
every syscall succeeds. -/

/-- `CreateOutcome`: how one `create` invocation ends.  Error outcomes
carry the image as the call leaves it. -/
inductive CreateOutcome where
  | fatal
  | silentReturn (d : Disk)
  | noFreeInodes (d : Disk)
  | dirFull (d : Disk)
  | journalFull (d : Disk)
  | success (chosen : Nat) (d : Disk)

/-- Is the outcome the fatal `exit(1)` path? -/
def CreateOutcome.isFatal : CreateOutcome → Bool
  | .fatal => true
  | _ => false

/-- Is the outcome the normal, journaled-and-flushed success path? -/
def CreateOutcome.isOk : CreateOutcome → Bool
  | .success _ _ => true
  | _ => false

/-- Is the outcome the silent `return` of journal.c line 297 (the
short-read branch of the raw journal-header read)? -/
def CreateOutcome.isSilent : CreateOutcome → Bool
  | .silentReturn _ => true
  | _ => false

/-- The image an outcome leaves behind (`dflt` for the `exit(1)` path,
where the process dies and the on-disk state is whatever the fault
left). -/
def CreateOutcome.getDisk : CreateOutcome → Disk → Disk
  | .fatal, dflt => dflt
  | .silentReturn d, _ => d
  | .noFreeInodes d, _ => d
  | .dirFull d, _ => d
  | .journalFull d, _ => d
  | .success _ d, _ => d

/-- The all-syscalls-succeed oracle. -/
def noFault : Nat → Bool := fun _ => false

/-- The free-inode search of `do_create` (journal.c lines 222-230):
scan `idx` ascending from 0, return the first index whose bitmap bit
`ibmap[idx/8] & (1 << idx%8)` is clear.  Structured on the number of
indices left to try. -/
def findFreeInodeAux (bm : Nat → Nat) : Nat → Nat → Option Nat
  | 0, _ => none
  | n+1, idx =>
    if bm (idx / 8) &&& (1 <<< (idx % 8)) = 0 then some idx
    else findFreeInodeAux bm n (idx + 1)

/-- Free-inode search over `inode_count` indices. -/
def findFreeInode (bm : Nat → Nat) (count : Nat) : Option Nat :=
  findFreeInodeAux bm count 0

/-- The in-memory bitmap copy after `ibmap[idx/8] |= mask`
(journal.c line 226). -/
def setBitByte (bm : Nat → Nat) (idx : Nat) : Nat → Nat :=
  fun i => if i = idx / 8 then bm i ||| (1 <<< (idx % 8)) else bm i

/-- The inode-table block buffer after
`memset(&inodes_arr[slot], 0, 128); type = 1; links = 1; size = 0`
(journal.c lines 247-250).  Bytes of the 128-byte slot: `type` is the
little-endian `uint16` 1 at offset 0, `links` the `uint16` 1 at offset
2, everything else zero. -/
def initInodeSlot (blk : Nat → Nat) (slot : Nat) : Nat → Nat :=
  fun i =>
    if slot * 128 ≤ i ∧ i < slot * 128 + 128 then
      (if i = slot * 128 then 1 else if i = slot * 128 + 2 then 1 else 0)
    else blk i

/-- An inode-table block buffer after `root.size += sizeof(struct dirent)`
on slot 0 (journal.c lines 257/262): the `uint32` size field at bytes
4..7 is incremented by 32, wrapping mod 2^32. -/
def bumpRootSize (blk : Nat → Nat) : Nat → Nat :=
  fun i =>
    if 4 ≤ i ∧ i < 8 then
      le32byte ((le32 (blk 4) (blk 5) (blk 6) (blk 7) + 32) % 4294967296) (i - 4)
    else blk i

/-- The free directory-slot search (journal.c lines 276-282): first of
the 128 entries with `inode == 0 && name[0] == '\0'`. -/
def findFreeDirentAux (db : Nat → Nat) : Nat → Nat → Option Nat
  | 0, _ => none
  | n+1, i =>
    if le32 (db (32*i)) (db (32*i+1)) (db (32*i+2)) (db (32*i+3)) = 0 ∧ db (32*i+4) = 0
    then some i
    else findFreeDirentAux db n (i + 1)

/-- Free directory-slot search over all `4096/32 = 128` entries. -/
def findFreeDirent (db : Nat → Nat) : Option Nat :=
  findFreeDirentAux db 128 0

/-- Byte `k` (0 ≤ k < 28) of the dirent name field after
`strncpy(d[dir_index].name, filename, NAME_LEN)` (journal.c line 290):
`strncpy` copies at most 28 bytes of the filename and zero-fills the
rest only when the filename is shorter; `fname` is the byte content of
the C string (without the terminator). -/
def direntNameByte (fname : List Nat) (k : Nat) : Nat :=
  if k < fname.length then fname.getD k 0 % 256 else 0

/-- The directory data block buffer after writing
`(chosen, filename)` into entry `di` (journal.c lines 289-290). -/
def putDirent (db : Nat → Nat) (di chosen : Nat) (fname : List Nat) : Nat → Nat :=
  fun i =>
    if 32 * di ≤ i ∧ i < 32 * di + 32 then
      (if i < 32 * di + 4 then le32byte chosen (i - 32 * di)
       else direntNameByte fname (i - (32 * di + 4)))
    else db i

/-- Serialized `struct data_record` (journal.c WRITE_RECORD macro,
lines 317-326): header `{type = REC_DATA = 1, size = 4104}`, the
`uint32` target block, then the 4096 payload bytes. -/
def serDataBytes (target : Nat) (buf : Nat → Nat) : Nat → Nat :=
  fun i =>
    if i = 0 then 1 else if i = 1 then 0
    else if i = 2 then 8 else if i = 3 then 16
    else if i < 8 then le32byte target (i - 4)
    else buf (i - 8) % 256

/-- Serialized `struct commit_record` `{type = REC_COMMIT = 2, size = 4}`
(journal.c lines 338-340). -/
def commitBytes : Nat → Nat :=
  fun i => if i = 0 then 2 else if i = 2 then 4 else 0

/-- Serialized journal header with magic "JRNL" and the given
`nbytes_used` (journal.c lines 346-349). -/
def headerBytes (used : Nat) : Nat → Nat :=
  fun i =>
    if i < 4 then emptyJournalByte i else le32byte used (i - 4)

/-- The sequence of unchecked data-record writes of `do_create`
(journal.c lines 329-336): each record of `recs = (target, buffer)` is
written at the running position; a faulted write transfers nothing but
the position and syscall counter advance regardless. -/
def writeRecs (oracle : Nat → Bool) : List (Nat × (Nat → Nat)) → Nat → Nat → Disk → Disk
  | [], _, _, d => d
  | (t, buf) :: rest, n, pos, d =>
    writeRecs oracle rest (n + 1) (pos + 4104)
      (if oracle n then d else writeBytesF d pos 4104 (serDataBytes t buf))

/-- The journaling tail of `do_create` (journal.c lines 314-349): write
each data record, the commit record, then the updated header at the
start of the journal.  `jbase` is `journal_block * BLOCK_SIZE`, `used`
the (possibly reset) `nbytes_used` that was read. -/
def appendTx (oracle : Nat → Bool) (recs : List (Nat × (Nat → Nat)))
    (n jbase used : Nat) (d : Disk) : Disk :=
  let d1 := writeRecs oracle recs n (jbase + used) d
  let d2 :=
    if oracle (n + recs.length) then d1
    else writeBytesF d1 (jbase + used + recs.length * 4104) 4 commitBytes
  if oracle (n + recs.length + 1) then d2
  else writeBytesF d2 jbase 8 (headerBytes (used + (recs.length * 4104 + 4)))

/-- `root_dir_data_block` of `do_create` (journal.c lines 268-271):
`direct[0]` of the root inode, re-read from disk (`temp_root`). -/
def rootDirBlkOf (sb : SB) (disk : Disk) : Nat :=
  le32 (blockFn disk sb.inode_start 8) (blockFn disk sb.inode_start 9)
    (blockFn disk sb.inode_start 10) (blockFn disk sb.inode_start 11)

/-- The `jh.nbytes_used` value `do_create` settles on (journal.c lines
296-303): the stored count when the journal magic is present, else 8
(a fresh header). -/
def usedOf (sb : SB) (disk : Disk) : Nat :=
  if jMagic sb disk = JOURNAL_MAGIC then jUsed sb disk else 8

/-- The journal records `do_create` logs, in order (journal.c lines
329-336): the inode bitmap, the new inode's table block, the root
inode's table block when distinct (`rootRec`), and the root directory
data block with the new entry at slot `di`. -/
def createRecs (sb : SB) (disk : Disk) (fname : List Nat) (chosen nreal : Nat)
    (nib : Nat → Nat) (rootRec : List (Nat × (Nat → Nat))) (di : Nat) :
    List (Nat × (Nat → Nat)) :=
  (sb.inode_bitmap, setBitByte (blockFn disk sb.inode_bitmap) chosen) :: (nreal, nib) ::
    rootRec ++
      [(rootDirBlkOf sb disk, putDirent (blockFn disk (rootDirBlkOf sb disk)) di chosen fname)]

/-- Continuation of `do_create` from the re-read of the root inode
(journal.c lines 268 onward).  `rootRec` is the extra journal record for
the root inode's table block when it differs from the new inode's
(`root_inode_needs_log`), `n` the next syscall index. -/
def createRest (sb : SB) (oracle : Nat → Bool) (disk : Disk) (fname : List Nat)
    (chosen nreal : Nat) (nib : Nat → Nat)
    (rootRec : List (Nat × (Nat → Nat))) (n : Nat) : CreateOutcome :=
  -- read_block(sb.inode_start, temp_root), then read_block of direct[0]
  if oracle n then .fatal else
  if oracle (n+1) then .fatal else
  match findFreeDirent (blockFn disk (rootDirBlkOf sb disk)) with
  | none => .dirFull disk
  | some di =>
    -- raw 8-byte header read (journal.c lines 295-298): short read => plain return
    if oracle (n+2) then .silentReturn disk else
    if 65536 < usedOf sb disk +
        ((createRecs sb disk fname chosen nreal nib rootRec di).length * 4104 + 4) then
      .journalFull disk
    else
      .success chosen
        (appendTx oracle (createRecs sb disk fname chosen nreal nib rootRec di)
          (n+3) (sb.journal_block * 4096) (usedOf sb disk) disk)

/-- `do_create` (journal.c lines 212-352). -/
def do_create (sb : SB) (oracle : Nat → Bool) (disk : Disk) (fname : List Nat) :
    CreateOutcome :=
  if oracle 0 then .fatal else
  match findFreeInode (blockFn disk sb.inode_bitmap) sb.inode_count with
  | none => .noFreeInodes disk
  | some chosen =>
    if oracle 1 then .fatal else
    if sb.inode_start + chosen / (4096 / 128) = sb.inode_start then
      -- the root inode lives in the same table block (journal.c lines 255-257)
      createRest sb oracle disk fname chosen (sb.inode_start + chosen / (4096 / 128))
        (bumpRootSize (initInodeSlot
          (blockFn disk (sb.inode_start + chosen / (4096 / 128))) (chosen % (4096 / 128))))
        [] 2
    else
      -- separate read and journal record for the root block (lines 258-264)
      if oracle 2 then .fatal else
      createRest sb oracle disk fname chosen (sb.inode_start + chosen / (4096 / 128))
        (initInodeSlot (blockFn disk (sb.inode_start + chosen / (4096 / 128)))
          (chosen % (4096 / 128)))
        [(sb.inode_start, bumpRootSize (blockFn disk sb.inode_start))] 3

/-- Running the `create` command on an image. -/
def createImage (oracle : Nat → Bool) (d : Disk) (fname : List Nat) : CreateOutcome :=
  do_create (parseSB d) oracle d fname

/-! ## Bootstrap image (`mkfs.c`)

Geometry: block 0 superblock, blocks 1..16 journal, 17 inode bitmap,
18 data bitmap, 19..20 inode table (64 inodes), 21..84 data region,
85 blocks total.  `mkfs` takes the root timestamps from `time(NULL)`;
the model takes them as the parameter `now`. -/

/-- Byte `o` of the superblock block `mkfs.c` writes. -/
def sbByte (o : Nat) : Nat :=
  if o < 4 then le32byte 0x56534653 o
  else if o < 8 then le32byte 4096 (o - 4)
  else if o < 12 then le32byte 85 (o - 8)
  else if o < 16 then le32byte 64 (o - 12)
  else if o < 20 then le32byte 1 (o - 16)
  else if o < 24 then le32byte 17 (o - 20)
  else if o < 28 then le32byte 18 (o - 24)
  else if o < 32 then le32byte 19 (o - 28)
  else if o < 36 then le32byte 21 (o - 32)
  else 0

/-- Byte `o` of the root inode record `mkfs.c` writes
(type 2, links 2, size 64, direct[0] = 21, timestamps `now`). -/
def rootInodeByte (now o : Nat) : Nat :=
  if o = 0 then 2
  else if o = 2 then 2
  else if 4 ≤ o ∧ o < 8 then le32byte 64 (o - 4)
  else if 8 ≤ o ∧ o < 12 then le32byte 21 (o - 8)
  else if 40 ≤ o ∧ o < 44 then le32byte now (o - 40)
  else if 44 ≤ o ∧ o < 48 then le32byte now (o - 44)
  else 0

/-- Byte `o` of the root directory data block `mkfs.c` writes:
entry 0 = (0, "."), entry 1 = (0, ".."), remaining entries zeroed. -/
def rootDirByte (o : Nat) : Nat :=
  if o = 4 then 46
  else if o = 36 then 46
  else if o = 37 then 46
  else 0

/-- The freshly bootstrapped 85-block image (`mkfs.c` main). -/
def mkfsDisk (now : Nat) : Disk := fun a =>
  if a < 4096 then sbByte a
  else if a < 69632 then 0
  else if a < 73728 then (if a = 69632 then 1 else 0)
  else if a < 77824 then (if a = 73728 then 1 else 0)
  else if a < 81920 then rootInodeByte now (a - 77824)
  else if a < 86016 then 0
  else if a < 90112 then rootDirByte (a - 86016)
  else 0


/-! ## Validator (`validator.c`)

The validator hardcodes the geometry (inode bitmap block 17, data
bitmap 18, inode table blocks 19-20, data region blocks 21..84, 85
blocks total) and accumulates one global `error_count`; the model sums
the contributions of each pass.  `ia` is the in-memory inode area (the
8192 bytes of blocks 19-20), `rdB blk` the byte function of block `blk`
as `pread_block` returns it, `used jx` the `inode_used` array
(`type ≠ 0`). -/

/-- `bitmap_test` (validator.c lines 88-90). -/
def bTest (bm : Nat → Nat) (i : Nat) : Nat := (bm (i / 8) >>> (i % 8)) &&& 1

/-- The scan of `bitmap_check_zero_tail` (lines 92-100): does any of the
`n` bits starting at `bit` test as set?  The C reports the first stray
bit and returns, so one tail check contributes at most one violation. -/
def hasStray (bm : Nat → Nat) : Nat → Nat → Bool
  | 0, _ => false
  | n+1, bit => if bTest bm bit = 1 then true else hasStray bm n (bit + 1)

/-- Violations from `bitmap_check_zero_tail(bm, valid, _)`; the bitmap
block holds `BLOCK_SIZE * 8 = 32768` bits. -/
def bitmapTailErrs (bm : Nat → Nat) (valid : Nat) : Nat :=
  if hasStray bm (32768 - valid) valid then 1 else 0

/-- Violations from `validate_superblock` (lines 102-131). -/
def vSuperblockErrs (sb : SB) : Nat :=
  (if sb.magic ≠ FS_MAGIC then 1 else 0) +
  (if sb.block_size ≠ 4096 then 1 else 0) +
  (if sb.total_blocks ≠ 85 then 1 else 0) +
  (if sb.inode_count ≠ 64 then 1 else 0) +
  (if sb.journal_block ≠ 1 then 1 else 0) +
  (if sb.inode_bitmap ≠ 17 then 1 else 0) +
  (if sb.data_bitmap ≠ 18 then 1 else 0) +
  (if sb.inode_start ≠ 19 then 1 else 0) +
  (if sb.data_start ≠ 21 then 1 else 0)

/-- `type` of inode `i` in the inode area. -/
def inoType (ia : Nat → Nat) (i : Nat) : Nat := le16 (ia (128 * i)) (ia (128 * i + 1))

/-- `links` of inode `i`. -/
def inoLinks (ia : Nat → Nat) (i : Nat) : Nat := le16 (ia (128 * i + 2)) (ia (128 * i + 3))

/-- `size` of inode `i`. -/
def inoSize (ia : Nat → Nat) (i : Nat) : Nat :=
  le32 (ia (128 * i + 4)) (ia (128 * i + 5)) (ia (128 * i + 6)) (ia (128 * i + 7))

/-- `direct[k]` of inode `i`. -/
def inoDirect (ia : Nat → Nat) (i k : Nat) : Nat :=
  le32 (ia (128 * i + 8 + 4 * k)) (ia (128 * i + 8 + 4 * k + 1))
    (ia (128 * i + 8 + 4 * k + 2)) (ia (128 * i + 8 + 4 * k + 3))

/-- `de->inode` of directory entry `e` in a directory data block. -/
def deIno (blk : Nat → Nat) (e : Nat) : Nat :=
  le32 (blk (32 * e)) (blk (32 * e + 1)) (blk (32 * e + 2)) (blk (32 * e + 3))

/-- `memchr(de->name, 0, 28) != NULL`: the name has a NUL within its
28-byte field. -/
def nameNul (blk : Nat → Nat) (e : Nat) : Bool :=
  (List.range 28).any fun k => blk (32 * e + 4 + k) == 0

/-- `strcmp(de->name, ".") == 0` (valid once `nameNul` holds). -/
def isDotEnt (blk : Nat → Nat) (e : Nat) : Prop :=
  blk (32 * e + 4) = 46 ∧ blk (32 * e + 5) = 0

/-- `strcmp(de->name, "..") == 0`. -/
def isDotdotEnt (blk : Nat → Nat) (e : Nat) : Prop :=
  blk (32 * e + 4) = 46 ∧ blk (32 * e + 5) = 46 ∧ blk (32 * e + 6) = 0

instance (blk : Nat → Nat) (e : Nat) : Decidable (isDotEnt blk e) :=
  inferInstanceAs (Decidable (_ ∧ _))

instance (blk : Nat → Nat) (e : Nat) : Decidable (isDotdotEnt blk e) :=
  inferInstanceAs (Decidable (_ ∧ _))

/-- The running state of `check_directory`'s entry scan: error count,
collected `link_refs` increments, and the two presence flags. -/
structure DirScan where
  err : Nat
  refs : List Nat
  sawDot : Bool
  sawDotdot : Bool

/-- The initial `check_directory` scan state. -/
def initScan : DirScan := { err := 0, refs := [], sawDot := false, sawDotdot := false }

/-- One directory entry of `check_directory`'s inner loop (validator.c
lines 159-188).  The free-inode reference check of lines 168-170 reports
an error but does not skip the entry, so its contribution
(`if used … then 0 else 1`) is added on every path that passes the
range check. -/
def entryStep (blk : Nat → Nat) (i : Nat) (used : Nat → Bool) (icount e : Nat)
    (s : DirScan) : DirScan :=
  if deIno blk e = 0 ∧ blk (32 * e + 4) = 0 then s
  else if icount ≤ deIno blk e then { s with err := s.err + 1 }
  else if ¬ nameNul blk e then
    { s with err := s.err + (if used (deIno blk e) then 0 else 1) + 1 }
  else if blk (32 * e + 4) = 0 then
    { s with err := s.err + (if used (deIno blk e) then 0 else 1) + 1 }
  else if isDotEnt blk e then
    { err := s.err + (if used (deIno blk e) then 0 else 1) +
        (if deIno blk e = i then 0 else 1),
      refs := s.refs ++ [deIno blk e], sawDot := true, sawDotdot := s.sawDotdot }
  else if isDotdotEnt blk e then
    { err := s.err + (if used (deIno blk e) then 0 else 1),
      refs := s.refs ++ [deIno blk e], sawDot := s.sawDot, sawDotdot := true }
  else
    { err := s.err + (if used (deIno blk e) then 0 else 1),
      refs := s.refs ++ [deIno blk e], sawDot := s.sawDot, sawDotdot := s.sawDotdot }

/-- The entry loop of `check_directory` over `entries` entries. -/
def scanEntries (blk : Nat → Nat) (i : Nat) (used : Nat → Bool) (icount : Nat) :
    Nat → Nat → DirScan → DirScan
  | 0, _, s => s
  | n+1, e, s => scanEntries blk i used icount n (e + 1) (entryStep blk i used icount e s)

/-- The direct-pointer loop of `check_directory` (lines 149-190): walks
up to 8 direct pointers while bytes remain; a zero pointer reports and
returns early (second component `true`), skipping the trailing checks;
the third component is the remaining byte count. -/
def checkDirLoop (rdB : Nat → Nat → Nat) (dirp : Nat → Nat) (i : Nat)
    (used : Nat → Bool) (icount : Nat) :
    Nat → Nat → Nat → DirScan → DirScan × Bool × Nat
  | 0, _, rem, s => (s, false, rem)
  | n+1, d, rem, s =>
    if rem = 0 then (s, false, rem)
    else if dirp d = 0 then ({ s with err := s.err + 1 }, true, rem)
    else
      checkDirLoop rdB dirp i used icount n (d + 1) (rem - min rem 4096)
        (scanEntries (rdB (dirp d)) i used icount (min rem 4096 / 32) 0 s)

/-- `check_directory` (validator.c lines 133-203): its violation count
and the `link_refs` increments it makes. -/
def checkDirectory (rdB : Nat → Nat → Nat) (dirp : Nat → Nat) (sz i : Nat)
    (used : Nat → Bool) (icount : Nat) : Nat × List Nat :=
  if sz % 32 ≠ 0 then (1, [])
  else if (checkDirLoop rdB dirp i used icount 8 0 sz initScan).2.1 then
    ((checkDirLoop rdB dirp i used icount 8 0 sz initScan).1.err,
     (checkDirLoop rdB dirp i used icount 8 0 sz initScan).1.refs)
  else
    ((checkDirLoop rdB dirp i used icount 8 0 sz initScan).1.err +
      (if (checkDirLoop rdB dirp i used icount 8 0 sz initScan).2.2 ≠ 0 then 1 else 0) +
      (if 0 < sz ∧ (checkDirLoop rdB dirp i used icount 8 0 sz initScan).1.sawDot = false
        then 1 else 0) +
      (if 0 < sz ∧ (checkDirLoop rdB dirp i used icount 8 0 sz initScan).1.sawDotdot = false
        then 1 else 0),
     (checkDirLoop rdB dirp i used icount 8 0 sz initScan).1.refs)

/-- The state of the main inode pass: error count, `data_owner`,
`data_blocks_referenced`, and the accumulated `link_refs` increments. -/
structure VState where
  err : Nat
  owner : Nat → Option Nat
  refd : Nat → Bool
  refs : List Nat

/-- The initial main-pass state (`data_owner` all -1, nothing
referenced). -/
def initVState : VState :=
  { err := 0, owner := fun _ => none, refd := fun _ => false, refs := [] }

/-- The direct-pointer accounting loop of the main pass (validator.c
lines 268-285): out-of-region pointers report and skip; in-region
pointers check and update `data_owner` and mark the block referenced.
State: (errors added, owner, referenced, seen count). -/
def ptrLoop (dirp : Nat → Nat) (i : Nat) :
    Nat → Nat → Nat × (Nat → Option Nat) × (Nat → Bool) × Nat →
    Nat × (Nat → Option Nat) × (Nat → Bool) × Nat
  | 0, _, st => st
  | n+1, k, st =>
    if dirp k = 0 then ptrLoop dirp i n (k + 1) st
    else if dirp k < 21 ∨ 85 ≤ dirp k then
      ptrLoop dirp i n (k + 1) (st.1 + 1, st.2.1, st.2.2.1, st.2.2.2 + 1)
    else
      ptrLoop dirp i n (k + 1)
        (st.1 + (if st.2.1 (dirp k - 21) ≠ none ∧ st.2.1 (dirp k - 21) ≠ some i
            then 1 else 0),
         fun x => if x = dirp k - 21 then some i else st.2.1 x,
         fun x => if x = dirp k - 21 then true else st.2.2.1 x,
         st.2.2.2 + 1)

/-- One inode of the main pass (validator.c lines 247-297). -/
def inodeStep (rdB : Nat → Nat → Nat) (ia ibm : Nat → Nat) (icount i : Nat)
    (st : VState) : VState :=
  if inoType ia i = 0 then
    { st with err := st.err + (if bTest ibm i = 0 then 0 else 1) }
  else
    let e1 := st.err + (if bTest ibm i = 1 then 0 else 1)
    let req := (inoSize ia i + 4095) % 4294967296 / 4096
    let e2 := e1 + (if 2 < inoType ia i then 1 else 0) + (if 8 < req then 1 else 0)
    let pl := ptrLoop (fun k => inoDirect ia i k) i 8 0 (0, st.owner, st.refd, 0)
    let e3 := e2 + pl.1 + (if pl.2.2.2 < req then 1 else 0) +
      (if req = 0 ∧ 0 < pl.2.2.2 then 1 else 0)
    if inoType ia i = 2 then
      { err := e3 + (checkDirectory rdB (fun k => inoDirect ia i k) (inoSize ia i) i
          (fun jx => inoType ia jx != 0) icount).1,
        owner := pl.2.1, refd := pl.2.2.1,
        refs := st.refs ++ (checkDirectory rdB (fun k => inoDirect ia i k) (inoSize ia i) i
          (fun jx => inoType ia jx != 0) icount).2 }
    else
      { err := e3, owner := pl.2.1, refd := pl.2.2.1, refs := st.refs }

/-- The main inode loop over `inode_count` inodes. -/
def vLoop (rdB : Nat → Nat → Nat) (ia ibm : Nat → Nat) (icount : Nat) :
    Nat → Nat → VState → VState
  | 0, _, st => st
  | n+1, i, st => vLoop rdB ia ibm icount n (i + 1) (inodeStep rdB ia ibm icount i st)

/-- The link-count pass (validator.c lines 299-306). -/
def linkErrs (ia : Nat → Nat) (refs : List Nat) : Nat → Nat → Nat
  | 0, _ => 0
  | n+1, i =>
    (if inoType ia i ≠ 0 ∧ inoLinks ia i ≠ refs.count i then 1 else 0) +
      linkErrs ia refs n (i + 1)

/-- The inode-bitmap agreement pass (lines 308-316). -/
def ibmAgreeErrs (ia ibm : Nat → Nat) : Nat → Nat → Nat
  | 0, _ => 0
  | n+1, i =>
    (if bTest ibm i = 1 ∧ inoType ia i = 0 then 1 else 0) +
    (if bTest ibm i = 0 ∧ inoType ia i ≠ 0 then 1 else 0) +
    ibmAgreeErrs ia ibm n (i + 1)

/-- The data-bitmap agreement pass (lines 319-327). -/
def dbmAgreeErrs (dbm : Nat → Nat) (rfd : Nat → Bool) : Nat → Nat → Nat
  | 0, _ => 0
  | n+1, b =>
    (if bTest dbm b = 1 ∧ rfd b = false then 1 else 0) +
    (if bTest dbm b = 0 ∧ rfd b = true then 1 else 0) +
    dbmAgreeErrs dbm rfd n (b + 1)

/-- The validator's total violation count over its inputs. -/
def validatorCore (sb : SB) (ibm dbm ia : Nat → Nat) (rdB : Nat → Nat → Nat) : Nat :=
  let st := vLoop rdB ia ibm sb.inode_count sb.inode_count 0 initVState
  vSuperblockErrs sb + st.err +
  linkErrs ia st.refs sb.inode_count 0 +
  ibmAgreeErrs ia ibm sb.inode_count 0 +
  bitmapTailErrs ibm sb.inode_count +
  dbmAgreeErrs dbm st.refd 64 0 +
  bitmapTailErrs dbm 64

/-- The validator's violation count on an image (validator.c `main`):
superblock from block 0, bitmaps from the hardcoded blocks 17/18, inode
area from blocks 19-20, directory data read per block. -/
def validatorErrors (d : Disk) : Nat :=
  validatorCore (parseSB d) (blockFn d 17) (blockFn d 18)
    (fun o => byteAt d (19 * 4096 + o)) (fun blk => blockFn d blk)

/-- The predicate under which the validator never reads the journal
region: every direct pointer of every inode slot the main loop visits is
0 or at least 17 (the hypothesis over all slots, directory or not, is
slightly stronger than needed and decidable). -/
def dirPtrsAvoidJournal (d : Disk) : Prop :=
  ∀ jx, jx < (parseSB d).inode_count → ∀ k, k < 8 →
    inoDirect (fun o => byteAt d (19 * 4096 + o)) jx k = 0 ∨
    ¬(1 ≤ inoDirect (fun o => byteAt d (19 * 4096 + o)) jx k ∧
      inoDirect (fun o => byteAt d (19 * 4096 + o)) jx k < 17)

instance (d : Disk) : Decidable (dirPtrsAvoidJournal d) :=
  inferInstanceAs (Decidable (∀ jx, jx < _ → ∀ k, k < 8 → _ ∨ _))


/-- Root inode record of the C8 counterexample image: directory,
links 3, size 96 (three entries), first data block 21. -/
def twoDotRootInodeByte (o : Nat) : Nat :=
  if o = 0 then 2 else if o = 2 then 3
  else if 4 ≤ o ∧ o < 8 then le32byte 96 (o - 4)
  else if 8 ≤ o ∧ o < 12 then le32byte 21 (o - 8)
  else 0

/-- Root directory block of the C8 counterexample image: entries
(0, "."), (0, "."), (0, "..") — two self-referencing "." entries. -/
def twoDotDirByte (o : Nat) : Nat :=
  if o = 4 then 46 else if o = 36 then 46
  else if o = 68 then 46 else if o = 69 then 46 else 0

/-- A geometry-conformant image whose root directory holds two "."
entries (both referencing the root) and one "..", with size and link
count consistent. -/
def twoDotDisk : Disk := fun a =>
  if a < 4096 then sbByte a
  else if a < 69632 then 0
  else if a < 73728 then (if a = 69632 then 1 else 0)
  else if a < 77824 then (if a = 73728 then 1 else 0)
  else if a < 81920 then twoDotRootInodeByte (a - 77824)
  else if a < 86016 then 0
  else if a < 90112 then twoDotDirByte (a - 86016)
  else 0

/-- Specification-side count of scanned "." entries that do not
reference their own inode, over one directory data block; mirrors the
path of `entryStep` that reaches the "." comparison.  Used only to state
what `check_directory`'s error count covers. -/
def wrongDotEntries (blk : Nat → Nat) (i icount : Nat) : Nat → Nat → Nat
  | 0, _ => 0
  | n+1, e =>
    (if ¬(deIno blk e = 0 ∧ blk (32 * e + 4) = 0) ∧ deIno blk e < icount ∧
        nameNul blk e = true ∧ blk (32 * e + 4) ≠ 0 ∧ isDotEnt blk e ∧ deIno blk e ≠ i
      then 1 else 0) + wrongDotEntries blk i icount n (e + 1)

/-- Specification-side count of wrong "." entries over the directory
blocks `check_directory` scans. -/
def wrongDotsLoop (rdB : Nat → Nat → Nat) (dirp : Nat → Nat) (i icount : Nat) :
    Nat → Nat → Nat → Nat
  | 0, _, _ => 0
  | n+1, d, rem =>
    if rem = 0 then 0
    else if dirp d = 0 then 0
    else wrongDotEntries (rdB (dirp d)) i icount (min rem 4096 / 32) 0 +
      wrongDotsLoop rdB dirp i icount n (d + 1) (rem - min rem 4096)

/-! ## Symbolic journal content

To reason about `do_install` on every journal whose bytes parse as a
record sequence, we describe journal regions by the record list they
serialize: `JRec.data` is a full Data record (as `WRITE_RECORD` lays it
out), `JRec.commit` a Commit record.  `journalImageByte rs` is the byte
content of a journal region holding the header (magic "JRNL",
`nbytes_used = 8 + serJLen rs`) followed by the serialization of `rs`. -/

/-- One serialized journal record. -/
inductive JRec where
  | data (target : Nat) (payload : Nat → Nat)
  | commit

/-- Serialized record length: `sizeof(struct data_record) = 4104`,
`sizeof(struct commit_record) = 4`. -/
def recLen : JRec → Nat
  | .data _ _ => 4104
  | .commit => 4

/-- Byte `i` of one serialized record. -/
def serJRecByte : JRec → Nat → Nat
  | .data t buf => serDataBytes t buf
  | .commit => commitBytes

/-- Total serialized length of a record list. -/
def serJLen : List JRec → Nat
  | [] => 0
  | r :: rs => recLen r + serJLen rs

/-- Byte `i` of the serialization of a record list (0 beyond the end). -/
def serJ : List JRec → Nat → Nat
  | [], _ => 0
  | r :: rs, i => if i < recLen r then serJRecByte r i else serJ rs (i - recLen r)

/-- Byte `i` of a journal region holding the header then `rs`. -/
def journalImageByte (rs : List JRec) (i : Nat) : Nat :=
  if i < 8 then headerBytes (8 + serJLen rs) i else serJ rs (i - 8)

/-- What the `do_install` scan computes over a serialized record list:
the final `(pending, applied)` pair, with each buffered Data record
recorded as `(target mod 2^32, payload offset)`.  Mirrors one scan
iteration per record; the final `pending` is what a torn tail leaves
buffered. -/
def scanPA : Nat → List JRec → List (Nat × Nat) → List (Nat × Nat) →
    List (Nat × Nat) × List (Nat × Nat)
  | _, [], p, a => (p, a)
  | pos, .data t _ :: rest, p, a =>
    scanPA (pos + 4104) rest (p ++ [(t % 4294967296, pos + 8)]) a
  | pos, .commit :: rest, p, a => scanPA (pos + 4) rest [] (a ++ p)

/-- The (mod-2^32) targets of the Data records in a record list. -/
def dataTargets : List JRec → List Nat
  | [] => []
  | .data t _ :: rs => t % 4294967296 :: dataTargets rs
  | .commit :: rs => dataTargets rs

/-- Data records from `(target, payload)` pairs. -/
def dataRecsOf (rs : List (Nat × (Nat → Nat))) : List JRec :=
  rs.map fun q => JRec.data q.1 q.2

/-- The record list of a sequence of committed transactions: each
transaction is its Data records followed by one Commit. -/
def txnRecsOf (txns : List (List (Nat × (Nat → Nat)))) : List JRec :=
  (txns.map fun t => dataRecsOf t ++ [JRec.commit]).flatten

/-- The record list of committed transactions followed by a torn tail of
Data records with no Commit after them. -/
def journalRecsOf (txns : List (List (Nat × (Nat → Nat))))
    (torn : List (Nat × (Nat → Nat))) : List JRec :=
  txnRecsOf txns ++ dataRecsOf torn


/-- Concrete torn Data record for the C3 witness: target block 30,
constant payload 7. -/
def c3TornRec : Nat × (Nat → Nat) := (30, fun _ => 7)

/-- A bootstrapped image whose journal serializes no committed
transaction and a torn tail of exactly one Data record. -/
def diskC3 : Disk := fun a =>
  if 4096 ≤ a ∧ a < 8208 then journalImageByte (journalRecsOf [] [c3TornRec]) (a - 4096)
  else mkfsDisk 0 a

/-! ## Concrete test images used by individual claims -/

/-- A bootstrapped image whose journal holds magic "JRNL",
`nbytes_used = 12`, and at journal offset 8 a Data record header with
`type = REC_DATA`, declared `size = 0`. -/
def diskC1 : Disk := fun a =>
  if 4096 ≤ a ∧ a < 4108 then
    (if a = 4096 then 0x4C else if a = 4097 then 0x4E else if a = 4098 then 0x52
     else if a = 4099 then 0x4A else if a = 4100 then 12 else if a = 4104 then 1 else 0)
  else mkfsDisk 0 a

/-- Byte `i` of a journal region holding one committed transaction whose
single Data record targets block 0 with a payload of 171-bytes. -/
def c10JournalByte (i : Nat) : Nat :=
  if i < 4 then emptyJournalByte i
  else if i < 8 then le32byte 4116 (i - 4)
  else if i < 4112 then serDataBytes 0 (fun _ => 171) (i - 8)
  else commitBytes (i - 4112)

/-- A bootstrapped image whose journal holds that transaction. -/
def diskC10 : Disk := fun a =>
  if 4096 ≤ a ∧ a < 8212 then c10JournalByte (a - 4096) else mkfsDisk 0 a

/-- An image whose inode bitmap is all-ones, so `create` must fail with
"no free inodes". -/
def fullBitmapDisk : Disk := fun a =>
  if 69632 ≤ a ∧ a < 73728 then 255 else mkfsDisk 0 a

/-! ## C9: N create+install pairs assign inode indices 1..N -/

/-- One `create`+`install` pair with the fixed one-byte filename "a":
the assigned inode index and the image after install, or `none` when
create does not succeed or install does not terminate within `fuel`. -/
def pairStep (fuel : Nat) (d : Disk) : Option (Nat × Disk) :=
  match createImage noFault d [97] with
  | .success chosen d1 =>
    match installImage fuel d1 with
    | some d2 => some (chosen, d2)
    | none => none
  | _ => none

/-- `n` consecutive pairs: the assigned indices in order and the final
image. -/
def pairRun (fuel : Nat) : Nat → Disk → Option (List Nat × Disk)
  | 0, d => some ([], d)
  | n+1, d =>
    match pairStep fuel d with
    | some (c, d1) =>
      match pairRun fuel n d1 with
      | some (cs, d2) => some (c :: cs, d2)
      | none => none
    | none => none

/-- The indices assigned by `n` consecutive pairs. -/
def pairIndices (fuel n : Nat) (d : Disk) : Option (List Nat) :=
  (pairRun fuel n d).map Prod.fst

/-- The superblock `mkfs.c` writes. -/
def stdSB : SB :=
  { magic := FS_MAGIC, block_size := 4096, total_blocks := 85, inode_count := 64,
    journal_block := 1, inode_bitmap := 17, data_bitmap := 18,
    inode_start := 19, data_start := 21 }

/-- Byte `o` of an inode bitmap whose bits `0..k` are set and all
higher bits clear. -/
def ibmByteC9 (k o : Nat) : Nat := (2 ^ (k + 1) - 1) / 256 ^ o % 256

/-- Byte `jj` (the four inode-field bytes, then `name[0]`) of directory
entry `e` of the root directory block after `k` one-letter files were
created: ".", "..", then one entry per file in creation order. -/
def dirHeadByteC9 (k e jj : Nat) : Nat :=
  if e < 2 then (if jj = 4 then 46 else 0)
  else if e < k + 2 then (if jj = 4 then 97 else le32byte (e - 1) jj)
  else 0

/-- The pending list the install scan builds from the Data records of
`recs` serialized starting at journal offset `pos`. -/
def pendOf : List (Nat × (Nat → Nat)) → Nat → List (Nat × Nat)
  | [], _ => []
  | (t, _) :: rest, pos => (t % 4294967296, pos + 8) :: pendOf rest (pos + 4104)

/-- The state after `k` `create`+`install` pairs on the fresh image:
superblock intact, journal header neutral (`nbytes_used` reads as 8),
inode-bitmap bits `0..k` set and nothing else, root inode `direct[0] =
21` with the rest of that word's bytes zero, and the root directory
holding ".", ".." and one entry per created file, in order. -/
def InvC9 (k : Nat) (d : Disk) : Prop :=
  parseSB d = stdSB ∧
  usedOf stdSB d = 8 ∧
  (∀ o, o < 8 → blockFn d 17 o = ibmByteC9 k o) ∧
  (∀ o, 8 ≤ o → o < 12 → blockFn d 19 o = if o = 8 then 21 else 0) ∧
  (∀ e, e < 128 → ∀ jj, jj < 5 → blockFn d 21 (32 * e + jj) = dirHeadByteC9 k e jj)

/-! ## Basic lemmas about the byte-level primitives -/

theorem writeBytesF_in (d : Disk) (off len : Nat) (src : Nat → Nat) (a : Nat)
    (h1 : off ≤ a) (h2 : a < off + len) :
    writeBytesF d off len src a = src (a - off) := by
  simp [writeBytesF, h1, h2]

theorem writeBytesF_out (d : Disk) (off len : Nat) (src : Nat → Nat) (a : Nat)
    (h : a < off ∨ off + len ≤ a) :
    writeBytesF d off len src a = d a := by
  have : ¬ (off ≤ a ∧ a < off + len) := by omega
  simp [writeBytesF, this]

theorem le32byte_lt (v k : Nat) : le32byte v k < 256 := by
  simp only [le32byte]
  exact Nat.mod_lt _ (by norm_num)

theorem le32_le32byte (v : Nat) :
    le32 (le32byte v 0) (le32byte v 1) (le32byte v 2) (le32byte v 3) = v % 4294967296 := by
  simp only [le32, le32byte]
  simp only [pow_zero, pow_one, Nat.div_one]
  have h0 : v % 256 % 256 = v % 256 := Nat.mod_mod_of_dvd v (by norm_num)
  have h1 : v / 256 % 256 % 256 = v / 256 % 256 := Nat.mod_mod_of_dvd _ (by norm_num)
  have h2 : v / 256 ^ 2 % 256 % 256 = v / 256 ^ 2 % 256 := Nat.mod_mod_of_dvd _ (by norm_num)
  have h3 : v / 256 ^ 3 % 256 % 256 = v / 256 ^ 3 % 256 := Nat.mod_mod_of_dvd _ (by norm_num)
  rw [h0, h1, h2, h3]
  have e2 : v / 256 ^ 2 = v / 256 / 256 := by rw [Nat.div_div_eq_div_mul]; norm_num
  have e3 : v / 256 ^ 3 = v / 256 / 256 / 256 := by
    rw [Nat.div_div_eq_div_mul, Nat.div_div_eq_div_mul]; norm_num
  rw [e2, e3]
  omega

theorem le32_lt (b0 b1 b2 b3 : Nat) : le32 b0 b1 b2 b3 < 4294967296 := by
  simp only [le32]
  have h0 : b0 % 256 < 256 := Nat.mod_lt _ (by norm_num)
  have h1 : b1 % 256 < 256 := Nat.mod_lt _ (by norm_num)
  have h2 : b2 % 256 < 256 := Nat.mod_lt _ (by norm_num)
  have h3 : b3 % 256 < 256 := Nat.mod_lt _ (by norm_num)
  omega

theorem le16_lt (b0 b1 : Nat) : le16 b0 b1 < 65536 := by
  simp only [le16]
  have h0 : b0 % 256 < 256 := Nat.mod_lt _ (by norm_num)
  have h1 : b1 % 256 < 256 := Nat.mod_lt _ (by norm_num)
  omega

/-! ## C1: a zero-length Data record stalls the install scan -/

theorem scanJournal_diskC1_stalls (fuel : Nat) : ∀ pending applied,
    scanJournal (fun off => byteAt diskC1 (4096 + off)) 12 fuel 8 pending applied = none := by
  induction fuel with
  | zero => intro p a; rfl
  | succ n ih =>
    intro p a
    have hty : le16 (byteAt diskC1 (4096 + 8)) (byteAt diskC1 (4096 + (8+1))) = 1 := by decide
    have hsz : le16 (byteAt diskC1 (4096 + (8+2))) (byteAt diskC1 (4096 + (8+3))) = 0 := by decide
    simp only [scanJournal, hty, hsz]
    norm_num
    exact ih p a

/-- Unfolding `do_install` in the non-empty-journal case. -/
theorem do_install_scan_eq (sb : SB) (fuel : Nat) (disk : Disk)
    (hm : jMagic sb disk = JOURNAL_MAGIC) (hu : 8 < jUsed sb disk) :
    do_install sb fuel disk =
      match scanJournal (fun off => byteAt disk (sb.journal_block * 4096 + off))
          (jUsed sb disk) fuel 8 [] [] with
      | none => none
      | some applied =>
        some (clearJournal sb
          (applyPending sb (fun off => byteAt disk (sb.journal_block * 4096 + off))
            applied disk)) := by
  have hm' : le32 (byteAt disk (sb.journal_block * 4096 + 0))
      (byteAt disk (sb.journal_block * 4096 + 1)) (byteAt disk (sb.journal_block * 4096 + 2))
      (byteAt disk (sb.journal_block * 4096 + 3)) = JOURNAL_MAGIC := by
    simpa [jMagic] using hm
  have hu' : ¬ (le32 (byteAt disk (sb.journal_block * 4096 + 4))
      (byteAt disk (sb.journal_block * 4096 + 5)) (byteAt disk (sb.journal_block * 4096 + 6))
      (byteAt disk (sb.journal_block * 4096 + 7)) ≤ 8) := by
    simp only [jUsed] at hu
    omega
  simp only [do_install, hm', hu', jUsed, jMagic]
  simp

/-- Unfolding `do_install` in the empty-journal case. -/
theorem do_install_noop (sb : SB) (fuel : Nat) (disk : Disk)
    (h : jMagic sb disk ≠ JOURNAL_MAGIC ∨ jUsed sb disk ≤ 8) :
    do_install sb fuel disk = some disk := by
  simp only [do_install]
  rcases h with h | h
  · rw [if_pos]
    simpa [jMagic] using h
  · by_cases hm : jMagic sb disk = JOURNAL_MAGIC
    · rw [if_neg, if_pos]
      · simpa [jUsed] using h
      · simpa [jMagic] using hm
    · rw [if_pos]
      simpa [jMagic] using hm

/-- C1.  The claim says a Data record with declared length 0 is rejected
as corrupt and the scan always terminates.  On `diskC1` the scan of
`do_install` never advances past position 8 (`pos += rh->size` adds 0),
so no amount of fuel makes the run terminate: the C loop runs forever. -/
theorem c1_zero_length_record_stalls_install (fuel : Nat) :
    installImage fuel diskC1 = none := by
  have hm : jMagic (parseSB diskC1) diskC1 = JOURNAL_MAGIC := by decide
  have hu : jUsed (parseSB diskC1) diskC1 = 12 := by decide
  rw [installImage, do_install_scan_eq _ _ _ hm (by rw [hu]; norm_num), hu]
  have hsb : (parseSB diskC1).journal_block = 1 := by decide
  rw [hsb]
  rw [show (1 * 4096 : Nat) = 4096 by norm_num]
  rw [scanJournal_diskC1_stalls]

/-! ## C2: the stored name field of a 28-byte filename has no NUL -/

/-- C2.  The claim says the name `create` stores is always
null-terminated within the 28-byte field.  For the 28-byte filename
"aaaa…a" the field `strncpy` leaves behind (journal.c line 290) is the
28 bytes of the name itself — no NUL anywhere in the field. -/
theorem c2_name_field_of_28_byte_filename_has_no_nul :
    (List.range 28).map (direntNameByte (List.replicate 28 97)) = List.replicate 28 97 ∧
    0 ∉ (List.range 28).map (direntNameByte (List.replicate 28 97)) := by
  decide

/-! ## C6: unchecked journal I/O in `do_create` is not fatal -/

/-- C6.  The claim says every short read/write on the backing store is
fatal (nonzero abort), including `create`'s journal-record writes and
its journal-header read.  On a fresh image: when syscall 5 — the write
of the first journal data record (journal.c line 324, return value
unchecked) — fails, `do_create` still runs to its success exit; when
syscall 4 — the raw 8-byte journal-header read (line 296) — returns
short, `do_create` silently returns (journal.c line 297) and the process
exits 0.  Neither path aborts. -/
theorem c6_unchecked_create_journal_io_not_fatal :
    (do_create (parseSB (mkfsDisk 0)) (fun n => n == 5) (mkfsDisk 0) [97]).isFatal = false ∧
    (do_create (parseSB (mkfsDisk 0)) (fun n => n == 5) (mkfsDisk 0) [97]).isOk = true ∧
    (do_create (parseSB (mkfsDisk 0)) (fun n => n == 4) (mkfsDisk 0) [97]).isFatal = false ∧
    (do_create (parseSB (mkfsDisk 0)) (fun n => n == 4) (mkfsDisk 0) [97]).isSilent = true := by
  decide

/-! ## C10: a committed Data record may target the superblock -/

/-- C10.  `do_install`'s only bounds check before applying a committed
write is `block_no < sb.total_blocks` (journal.c line 184), so a
committed Data record targeting block 0 is applied verbatim: after
install the first superblock byte is the payload byte 171 instead of the
magic byte 83 ('S') it held before. -/
theorem c10_committed_record_overwrites_superblock :
    (installImage 8 diskC10).isSome = true ∧
    byteAt ((installImage 8 diskC10).getD diskC10) 0 = 171 ∧
    byteAt diskC10 0 = 83 := by
  decide

/-! ## C5: create's resource-exhaustion failures have no side effects -/

set_option maxHeartbeats 1600000 in
/-- C5.  When `do_create` fails with "no free inodes"
(journal.c lines 232-235), "directory full" (lines 284-287) or
"journal full" (lines 309-312), the image it leaves behind is exactly
the input image: all three checks happen before the first journal
write, so the failing call modifies no block. -/
theorem c5_create_failures_leave_image_untouched (sb : SB) (oracle : Nat → Bool)
    (disk : Disk) (fname : List Nat) (d : Disk)
    (h : do_create sb oracle disk fname = .noFreeInodes d ∨
         do_create sb oracle disk fname = .dirFull d ∨
         do_create sb oracle disk fname = .journalFull d) :
    d = disk := by
  unfold do_create createRest at h
  rcases h with h | h | h <;>
    repeat (any_goals split at h)
  all_goals
    first
      | (injection h with h1; exact h1.symm)
      | exact CreateOutcome.noConfusion h

theorem c5_witness : fullBitmapDisk = fullBitmapDisk :=
  c5_create_failures_leave_image_untouched (parseSB fullBitmapDisk) noFault
    fullBitmapDisk [97] fullBitmapDisk (Or.inl rfl)

/-! ## C7: installing an empty journal is a no-op; install is idempotent -/

theorem emptyJournalByte_lt (i : Nat) : emptyJournalByte i < 256 := by
  unfold emptyJournalByte
  repeat' split <;> norm_num

theorem clearJournal_byteAt (sb : SB) (d : Disk) (a : Nat)
    (h1 : sb.journal_block * 4096 ≤ a) (h2 : a < sb.journal_block * 4096 + 65536) :
    byteAt (clearJournal sb d) a = emptyJournalByte (a - sb.journal_block * 4096) := by
  unfold byteAt clearJournal
  rw [writeBytesF_in _ _ _ _ _ h1 h2]
  exact Nat.mod_eq_of_lt (emptyJournalByte_lt _)

theorem clearJournal_byte (sb : SB) (d : Disk) (i : Nat) (h : i < 65536) :
    byteAt (clearJournal sb d) (sb.journal_block * 4096 + i) = emptyJournalByte i := by
  rw [clearJournal_byteAt sb d _ (by omega) (by omega)]
  congr 1
  omega

theorem jMagic_clearJournal (sb : SB) (d : Disk) :
    jMagic sb (clearJournal sb d) = JOURNAL_MAGIC := by
  unfold jMagic
  rw [clearJournal_byteAt sb d _ (Nat.le_refl _) (by omega),
    clearJournal_byteAt sb d _ (by omega) (by omega),
    clearJournal_byteAt sb d _ (by omega) (by omega),
    clearJournal_byteAt sb d _ (by omega) (by omega)]
  simp only [Nat.sub_self, Nat.add_sub_cancel_left]
  decide

theorem jUsed_clearJournal (sb : SB) (d : Disk) :
    jUsed sb (clearJournal sb d) = 8 := by
  unfold jUsed
  rw [clearJournal_byte sb d 4 (by norm_num), clearJournal_byte sb d 5 (by norm_num),
    clearJournal_byte sb d 6 (by norm_num), clearJournal_byte sb d 7 (by norm_num)]
  decide

/-- After a terminating `do_install`, the journal header holds magic
"JRNL" and `nbytes_used = 8`: either the call returned early leaving the
header below the emptiness threshold, or it rewrote the cleared
journal. -/
theorem do_install_result_header (sb : SB) (fuel : Nat) (disk d' : Disk)
    (h : do_install sb fuel disk = some d') :
    d' = disk ∧ (jMagic sb disk ≠ JOURNAL_MAGIC ∨ jUsed sb disk ≤ 8) ∨
    jMagic sb d' = JOURNAL_MAGIC ∧ jUsed sb d' = 8 := by
  by_cases hm : jMagic sb disk = JOURNAL_MAGIC
  · by_cases hu : jUsed sb disk ≤ 8
    · left
      refine ⟨?_, Or.inr hu⟩
      have := do_install_noop sb fuel disk (Or.inr hu)
      rw [this] at h
      exact (Option.some_inj.mp h).symm
    · right
      rw [do_install_scan_eq sb fuel disk hm (by omega)] at h
      rcases hscan : scanJournal (fun off => byteAt disk (sb.journal_block * 4096 + off))
          (jUsed sb disk) fuel 8 [] [] with _ | applied
      · rw [hscan] at h; exact absurd h (by simp)
      · rw [hscan] at h
        have hd' : d' = clearJournal sb
            (applyPending sb (fun off => byteAt disk (sb.journal_block * 4096 + off))
              applied disk) := (Option.some_inj.mp h).symm
        subst hd'
        exact ⟨jMagic_clearJournal sb _, jUsed_clearJournal sb _⟩
  · left
    refine ⟨?_, Or.inl hm⟩
    have := do_install_noop sb fuel disk (Or.inl hm)
    rw [this] at h
    exact (Option.some_inj.mp h).symm

/-- C7.  If the journal magic is absent or `nbytes_used ≤ 8`, `install`
writes nothing and succeeds (the image is returned byte-identical); and
whenever one `install` terminates, a second `install` of its result is a
no-op (the second run sees magic "JRNL" with `nbytes_used = 8`), so
installing an already-empty or already-emptied journal never changes a
byte of the image, the journal header included. -/
theorem c7_install_empty_noop_and_idempotent (disk : Disk) (fuel fuel' : Nat) :
    ((jMagic (parseSB disk) disk ≠ JOURNAL_MAGIC ∨ jUsed (parseSB disk) disk ≤ 8) →
      installImage fuel disk = some disk) ∧
    (∀ d', installImage fuel disk = some d' →
      (parseSB d').journal_block = (parseSB disk).journal_block →
      installImage fuel' d' = some d') := by
  constructor
  · intro h
    exact do_install_noop (parseSB disk) fuel disk h
  · intro d' h hjb
    rcases do_install_result_header (parseSB disk) fuel disk d' h with ⟨hd, hcase⟩ | ⟨hm, hu⟩
    · subst hd
      exact do_install_noop (parseSB d') fuel' d' (by rwa [jMagic, jUsed, hjb, ← jMagic, ← jUsed])
    · apply do_install_noop (parseSB d') fuel' d'
      right
      rw [jUsed, hjb, ← jUsed, hu]

/-- Witness for C7: a fresh bootstrapped image has a zeroed journal
(magic absent), so `install` returns it unchanged — twice. -/
theorem c7_witness : installImage 3 (mkfsDisk 0) = some (mkfsDisk 0) ∧
    installImage 5 (mkfsDisk 0) = some (mkfsDisk 0) := by
  have h1 : installImage 3 (mkfsDisk 0) = some (mkfsDisk 0) :=
    (c7_install_empty_noop_and_idempotent (mkfsDisk 0) 3 5).1 (Or.inl (by decide))
  exact ⟨h1, (c7_install_empty_noop_and_idempotent (mkfsDisk 0) 3 5).2 (mkfsDisk 0) h1 rfl⟩

/-! ## The scan over serialized journal content -/

/-- The `do_install` scan of a journal region whose bytes from `pos` on
serialize the record list `rs`, ending exactly at `nbytes_used`,
terminates and applies exactly what `scanPA` says. -/
theorem scanJournal_serialized (j : Nat → Nat) (used : Nat) (rs : List JRec) :
    ∀ (fuel pos : Nat) (pending applied : List (Nat × Nat)),
    (∀ i, i < serJLen rs → j (pos + i) = serJ rs i) →
    pos + serJLen rs = used →
    rs.length < fuel →
    scanJournal j used fuel pos pending applied = some (scanPA pos rs pending applied).2 := by
  induction rs with
  | nil =>
    intro fuel pos pending applied _ hlen hfuel
    match fuel, hfuel with
    | f + 1, _ =>
      simp only [serJLen] at hlen
      simp only [scanJournal, scanPA]
      rw [if_neg (by omega)]
  | cons r rest ih =>
    intro fuel pos pending applied hj hlen hfuel
    match fuel, hfuel with
    | f + 1, hfuel =>
      have hjrest : ∀ i, i < serJLen rest → j (pos + recLen r + i) = serJ rest i := by
        intro i hi
        have h1 := hj (recLen r + i) (by simp only [serJLen]; omega)
        rw [← Nat.add_assoc] at h1
        rw [h1]
        simp only [serJ]
        rw [if_neg (by omega)]
        congr 1
        omega
      have hlenrest : pos + recLen r + serJLen rest = used := by
        simp only [serJLen] at hlen
        omega
      have hfrest : rest.length < f := by
        simp only [List.length_cons] at hfuel
        omega
      cases r with
      | data t buf =>
        have hb0 : j (pos + 0) = 1 := by
          rw [hj 0 (by simp only [serJLen, recLen]; omega)]
          simp [serJ, recLen, serJRecByte, serDataBytes]
        have hb1 : j (pos + 1) = 0 := by
          rw [hj 1 (by simp only [serJLen, recLen]; omega)]
          simp [serJ, recLen, serJRecByte, serDataBytes]
        have hb2 : j (pos + 2) = 8 := by
          rw [hj 2 (by simp only [serJLen, recLen]; omega)]
          simp [serJ, recLen, serJRecByte, serDataBytes]
        have hb3 : j (pos + 3) = 16 := by
          rw [hj 3 (by simp only [serJLen, recLen]; omega)]
          simp [serJ, recLen, serJRecByte, serDataBytes]
        have hb4 : j (pos + 4) = le32byte t 0 := by
          rw [hj 4 (by simp only [serJLen, recLen]; omega)]
          simp [serJ, recLen, serJRecByte, serDataBytes]
        have hb5 : j (pos + 5) = le32byte t 1 := by
          rw [hj 5 (by simp only [serJLen, recLen]; omega)]
          simp [serJ, recLen, serJRecByte, serDataBytes]
        have hb6 : j (pos + 6) = le32byte t 2 := by
          rw [hj 6 (by simp only [serJLen, recLen]; omega)]
          simp [serJ, recLen, serJRecByte, serDataBytes]
        have hb7 : j (pos + 7) = le32byte t 3 := by
          rw [hj 7 (by simp only [serJLen, recLen]; omega)]
          simp [serJ, recLen, serJRecByte, serDataBytes]
        have hb0' : j pos = 1 := by simpa using hb0
        have hty : le16 (j pos) (j (pos + 1)) = 1 := by
          rw [hb0', hb1]; decide
        have hsz : le16 (j (pos + 2)) (j (pos + 3)) = 4104 := by
          rw [hb2, hb3]; decide
        have htgt : le32 (j (pos + 4)) (j (pos + 5)) (j (pos + 6)) (j (pos + 7)) =
            t % 4294967296 := by
          rw [hb4, hb5, hb6, hb7, le32_le32byte]
        simp only [recLen] at hjrest hlenrest
        simp only [scanJournal, hty, hsz, htgt, scanPA]
        rw [if_pos (show pos + 4 ≤ used by omega), if_neg (show ¬ used < pos + 4104 by omega)]
        exact ih f (pos + 4104) _ applied hjrest hlenrest hfrest
      | commit =>
        have hb0 : j (pos + 0) = 2 := by
          rw [hj 0 (by simp only [serJLen, recLen]; omega)]
          simp [serJ, recLen, serJRecByte, commitBytes]
        have hb1 : j (pos + 1) = 0 := by
          rw [hj 1 (by simp only [serJLen, recLen]; omega)]
          simp [serJ, recLen, serJRecByte, commitBytes]
        have hb2 : j (pos + 2) = 4 := by
          rw [hj 2 (by simp only [serJLen, recLen]; omega)]
          simp [serJ, recLen, serJRecByte, commitBytes]
        have hb3 : j (pos + 3) = 0 := by
          rw [hj 3 (by simp only [serJLen, recLen]; omega)]
          simp [serJ, recLen, serJRecByte, commitBytes]
        have hb0' : j pos = 2 := by simpa using hb0
        have hty : le16 (j pos) (j (pos + 1)) = 2 := by
          rw [hb0', hb1]; decide
        have hsz : le16 (j (pos + 2)) (j (pos + 3)) = 4 := by
          rw [hb2, hb3]; decide
        simp only [recLen] at hjrest hlenrest
        simp only [scanJournal, hty, hsz, scanPA]
        rw [if_pos (show pos + 4 ≤ used by omega), if_neg (show ¬ used < pos + 4 by omega)]
        exact ih f (pos + 4) [] (applied ++ pending) hjrest hlenrest hfrest

/-- Splitting `scanPA` over an append of record lists. -/
theorem scanPA_append (xs : List JRec) : ∀ (ys : List JRec) (pos : Nat)
    (p a : List (Nat × Nat)),
    scanPA pos (xs ++ ys) p a =
      scanPA (pos + serJLen xs) ys (scanPA pos xs p a).1 (scanPA pos xs p a).2 := by
  induction xs with
  | nil => intro ys pos p a; simp [scanPA, serJLen]
  | cons r rest ih =>
    intro ys pos p a
    cases r with
    | data t buf =>
      simp only [List.cons_append, scanPA, serJLen, recLen]
      rw [show pos + (4104 + serJLen rest) = pos + 4104 + serJLen rest from by omega]
      exact ih ys (pos + 4104) _ _
    | commit =>
      simp only [List.cons_append, scanPA, serJLen, recLen]
      rw [show pos + (4 + serJLen rest) = pos + 4 + serJLen rest from by omega]
      exact ih ys (pos + 4) _ _

/-- A record list with no Commit applies nothing: the scan only buffers. -/
theorem scanPA_dataRecs (torn : List (Nat × (Nat → Nat))) : ∀ (pos : Nat)
    (p a : List (Nat × Nat)), (scanPA pos (dataRecsOf torn) p a).2 = a := by
  induction torn with
  | nil => intro pos p a; simp [dataRecsOf, scanPA]
  | cons q rest ih =>
    intro pos p a
    simp only [dataRecsOf, List.map_cons, scanPA]
    exact ih _ _ _

/-- Every target the scan ends up applying is a Data-record target of the
scanned list (or was already pending or applied). -/
theorem scanPA_targets (rs : List JRec) : ∀ (pos : Nat) (p a : List (Nat × Nat))
    (w : Nat × Nat), w ∈ (scanPA pos rs p a).2 →
    w.1 ∈ a.map Prod.fst ∨ w.1 ∈ p.map Prod.fst ∨ w.1 ∈ dataTargets rs := by
  induction rs with
  | nil =>
    intro pos p a w hw
    simp only [scanPA] at hw
    exact Or.inl (List.mem_map_of_mem Prod.fst hw)
  | cons r rest ih =>
    intro pos p a w hw
    cases r with
    | data t buf =>
      simp only [scanPA] at hw
      rcases ih _ _ _ _ hw with h | h | h
      · exact Or.inl h
      · simp only [List.map_append, List.mem_append, List.map_cons, List.map_nil,
          List.mem_cons, List.not_mem_nil, or_false] at h
        rcases h with h | h
        · exact Or.inr (Or.inl h)
        · exact Or.inr (Or.inr (by simp [dataTargets, h]))
      · exact Or.inr (Or.inr (by simp [dataTargets, h]))
    | commit =>
      simp only [scanPA] at hw
      rcases ih _ _ _ _ hw with h | h | h
      · simp only [List.map_append, List.mem_append] at h
        rcases h with h | h
        · exact Or.inl h
        · exact Or.inr (Or.inl h)
      · exact absurd h (by simp)
      · exact Or.inr (Or.inr (by simp [dataTargets, h]))

theorem serJLen_append (xs ys : List JRec) :
    serJLen (xs ++ ys) = serJLen xs + serJLen ys := by
  induction xs with
  | nil => simp [serJLen]
  | cons r rest ih => simp only [List.cons_append, serJLen, List.append_eq, ih]; omega

theorem dataTargets_append (xs ys : List JRec) :
    dataTargets (xs ++ ys) = dataTargets xs ++ dataTargets ys := by
  induction xs with
  | nil => simp [dataTargets]
  | cons r rest ih =>
    cases r with
    | data t buf => simp only [List.cons_append, dataTargets, List.append_eq, ih]
    | commit => simp only [List.cons_append, dataTargets, List.append_eq, ih]

theorem dataTargets_dataRecsOf (l : List (Nat × (Nat → Nat))) :
    dataTargets (dataRecsOf l) = l.map (fun q => q.1 % 4294967296) := by
  induction l with
  | nil => simp [dataRecsOf, dataTargets]
  | cons q rest ih => simp only [dataRecsOf, List.map_cons, dataTargets] at *; rw [ih]

/-- Every Data-record target of a committed-transaction record list is
the (mod-2^32) target of some record of some transaction. -/
theorem dataTargets_txnRecsOf (txns : List (List (Nat × (Nat → Nat)))) (x : Nat) :
    x ∈ dataTargets (txnRecsOf txns) → ∃ t ∈ txns, ∃ q ∈ t, x = q.1 % 4294967296 := by
  induction txns with
  | nil => intro hx; simp [txnRecsOf, dataTargets] at hx
  | cons t rest ih =>
    intro hx
    rw [txnRecsOf, List.map_cons, List.flatten_cons, dataTargets_append, dataTargets_append,
      dataTargets_dataRecsOf] at hx
    simp only [dataTargets, List.append_nil] at hx
    rcases List.mem_append.mp hx with h | h
    · rcases List.mem_map.mp h with ⟨q, hq, hqeq⟩
      exact ⟨t, List.mem_cons_self t rest, q, hq, hqeq.symm⟩
    · rcases ih (show x ∈ dataTargets (txnRecsOf rest) from by rw [txnRecsOf]; exact h) with
        ⟨u, hu, q, hq, hqeq⟩
      exact ⟨u, List.mem_cons_of_mem t hu, q, hq, hqeq⟩

/-- `applyPending` leaves every byte outside the targeted blocks alone. -/
theorem applyPending_out (sb : SB) (j : Nat → Nat) (ws : List (Nat × Nat)) :
    ∀ (d : Disk) (a : Nat),
    (∀ w ∈ ws, a < w.1 * 4096 ∨ w.1 * 4096 + 4096 ≤ a) →
    applyPending sb j ws d a = d a := by
  induction ws with
  | nil => intro d a _; simp [applyPending]
  | cons w rest ih =>
    intro d a h
    simp only [applyPending, List.foldl_cons]
    rw [show List.foldl _ _ rest = applyPending sb j rest
      (if w.1 < sb.total_blocks then writeBytesF d (w.1 * 4096) 4096 (fun o => j (w.2 + o)) else d)
      from rfl]
    rw [ih _ a (fun v hv => h v (List.mem_cons_of_mem w hv))]
    split
    · exact writeBytesF_out _ _ _ _ _ (h w (List.mem_cons_self w rest))
    · rfl

/-! ## C3: torn transactions are never applied; the journal is cleared -/

/-- C3.  For every image whose journal region serializes a sequence of
committed transactions followed by a torn tail of Data records with no
Commit after them, `install` terminates, never writes the torn records'
target blocks (when no committed record also targets them and the target
lies outside the journal region itself), and rewrites the whole journal
region to the empty state (magic + `nbytes_used = 8`) regardless of how
many transactions were applied. -/
theorem c3_torn_tail_never_applied_journal_cleared (disk : Disk) (fuel : Nat)
    (txns : List (List (Nat × (Nat → Nat)))) (torn : List (Nat × (Nat → Nat)))
    (hj : ∀ i, i < 8 + serJLen (journalRecsOf txns torn) →
      byteAt disk ((parseSB disk).journal_block * 4096 + i) =
        journalImageByte (journalRecsOf txns torn) i)
    (hfit : 8 + serJLen (journalRecsOf txns torn) ≤ 65536)
    (htorn : torn ≠ [])
    (hfuel : (journalRecsOf txns torn).length < fuel) :
    ∃ d', installImage fuel disk = some d' ∧
      (∀ i, i < 65536 →
        byteAt d' ((parseSB disk).journal_block * 4096 + i) = emptyJournalByte i) ∧
      (∀ r ∈ torn,
        (∀ t ∈ txns, ∀ q ∈ t, q.1 % 4294967296 ≠ r.1 % 4294967296) →
        (r.1 % 4294967296 < (parseSB disk).journal_block ∨
          (parseSB disk).journal_block + 16 ≤ r.1 % 4294967296) →
        ∀ o, o < 4096 →
          d' (r.1 % 4294967296 * 4096 + o) = disk (r.1 % 4294967296 * 4096 + o)) := by
  have hpos : 0 < serJLen (journalRecsOf txns torn) := by
    rw [journalRecsOf, serJLen_append]
    cases torn with
    | nil => exact absurd rfl htorn
    | cons q rest => simp only [dataRecsOf, List.map_cons, serJLen, recLen]; omega
  have hm : jMagic (parseSB disk) disk = JOURNAL_MAGIC := by
    unfold jMagic
    have h0 := hj 0 (by omega)
    rw [Nat.add_zero] at h0
    rw [h0, hj 1 (by omega), hj 2 (by omega), hj 3 (by omega)]
    norm_num [journalImageByte, headerBytes, emptyJournalByte, le32, JOURNAL_MAGIC]
  have hu : jUsed (parseSB disk) disk = 8 + serJLen (journalRecsOf txns torn) := by
    unfold jUsed
    rw [hj 4 (by omega), hj 5 (by omega), hj 6 (by omega), hj 7 (by omega)]
    simp only [journalImageByte, headerBytes]
    norm_num
    rw [le32_le32byte]
    exact Nat.mod_eq_of_lt (by omega)
  have hscan : scanJournal
      (fun off => byteAt disk ((parseSB disk).journal_block * 4096 + off))
      (jUsed (parseSB disk) disk) fuel 8 [] [] =
      some (scanPA 8 (journalRecsOf txns torn) [] []).2 := by
    apply scanJournal_serialized
    · intro i hi
      show byteAt disk ((parseSB disk).journal_block * 4096 + (8 + i)) =
        serJ (journalRecsOf txns torn) i
      rw [hj (8 + i) (by omega)]
      simp only [journalImageByte]
      rw [if_neg (by omega)]
      congr 1
      omega
    · rw [hu]
    · exact hfuel
  rw [installImage, do_install_scan_eq _ _ _ hm (by rw [hu]; omega), hscan]
  refine ⟨_, rfl, ?_, ?_⟩
  · intro i hi
    exact clearJournal_byte _ _ i hi
  · intro r hr hne houtside o ho
    have happlied : (scanPA 8 (journalRecsOf txns torn) [] []).2 =
        (scanPA 8 (txnRecsOf txns) [] []).2 := by
      rw [journalRecsOf, scanPA_append, scanPA_dataRecs]
    show clearJournal (parseSB disk)
        (applyPending (parseSB disk)
          (fun off => byteAt disk ((parseSB disk).journal_block * 4096 + off))
          (scanPA 8 (journalRecsOf txns torn) [] []).2 disk)
        (r.1 % 4294967296 * 4096 + o) = disk (r.1 % 4294967296 * 4096 + o)
    unfold clearJournal
    rw [writeBytesF_out _ _ _ _ _ (by rcases houtside with h | h <;> omega)]
    rw [happlied]
    apply applyPending_out
    intro w hw
    have hwt := scanPA_targets (txnRecsOf txns) 8 [] [] w hw
    simp only [List.map_nil, List.not_mem_nil, false_or] at hwt
    rcases dataTargets_txnRecsOf txns w.1 hwt with ⟨t, ht, q, hq, hqeq⟩
    have hneq : w.1 ≠ r.1 % 4294967296 := by
      rw [hqeq]
      exact hne t ht q hq
    omega


theorem serJRecByte_lt (r : JRec) (i : Nat) : serJRecByte r i < 256 := by
  cases r with
  | data t buf =>
    simp only [serJRecByte, serDataBytes]
    repeat' split
    · norm_num
    · norm_num
    · norm_num
    · norm_num
    · exact le32byte_lt _ _
    · exact Nat.mod_lt _ (by norm_num)
  | commit =>
    simp only [serJRecByte, commitBytes]
    repeat' split
    · norm_num
    · norm_num
    · norm_num

theorem serJ_lt (rs : List JRec) : ∀ i, serJ rs i < 256 := by
  induction rs with
  | nil => intro i; simp [serJ]
  | cons r rest ih =>
    intro i
    simp only [serJ]
    split
    · exact serJRecByte_lt r i
    · exact ih _

theorem headerBytes_lt (u i : Nat) : headerBytes u i < 256 := by
  simp only [headerBytes]
  split
  · exact lt_of_lt_of_le (emptyJournalByte_lt i) (by norm_num)
  · exact le32byte_lt _ _

theorem journalImageByte_lt (rs : List JRec) (i : Nat) : journalImageByte rs i < 256 := by
  simp only [journalImageByte]
  split
  · exact headerBytes_lt _ _
  · exact serJ_lt _ _

/-- Witness for C3: installing the one-torn-record journal of `diskC3`
terminates, leaves the torn target block 30 untouched and resets the
journal header. -/
theorem c3_witness :
    ∃ d', installImage 3 diskC3 = some d' ∧
      byteAt d' ((parseSB diskC3).journal_block * 4096 + 4) = emptyJournalByte 4 ∧
      d' (c3TornRec.1 % 4294967296 * 4096 + 0) = diskC3 (c3TornRec.1 % 4294967296 * 4096 + 0) := by
  have hjb : (parseSB diskC3).journal_block = 1 := by decide
  have hlen : serJLen (journalRecsOf [] [c3TornRec]) = 4104 := rfl
  obtain ⟨d', hrun, hclear, htornc⟩ :=
    c3_torn_tail_never_applied_journal_cleared diskC3 3 [] [c3TornRec]
      (by intro i hi
          rw [hjb, one_mul]
          rw [hlen] at hi
          show diskC3 (4096 + i) % 256 = _
          unfold diskC3
          rw [if_pos (by omega : 4096 ≤ 4096 + i ∧ 4096 + i < 8208)]
          rw [show 4096 + i - 4096 = i by omega]
          exact Nat.mod_eq_of_lt (journalImageByte_lt _ _))
      (by rw [hlen]; omega)
      (by simp)
      (by simp [journalRecsOf, txnRecsOf, dataRecsOf])
  exact ⟨d', hrun, hclear 4 (by norm_num),
    htornc c3TornRec (List.mem_singleton_self _)
      (by intro t ht q hq; exact absurd ht (List.not_mem_nil t))
      (by decide) 0 (by norm_num)⟩


/-! ## C4 groundwork: a successful create writes only the journal region -/

theorem writeRecs_out (oracle : Nat → Bool) (recs : List (Nat × (Nat → Nat))) :
    ∀ (n pos : Nat) (d : Disk) (a : Nat),
    a < pos ∨ pos + recs.length * 4104 ≤ a →
    writeRecs oracle recs n pos d a = d a := by
  induction recs with
  | nil => intro n pos d a _; rfl
  | cons q rest ih =>
    intro n pos d a h
    simp only [List.length_cons] at h
    simp only [writeRecs]
    rw [ih (n+1) (pos + 4104) _ a (by omega)]
    split
    · rfl
    · exact writeBytesF_out _ _ _ _ _ (by omega)

theorem appendTx_out (oracle : Nat → Bool) (recs : List (Nat × (Nat → Nat)))
    (n jbase used : Nat) (d : Disk)
    (hfit : used + (recs.length * 4104 + 4) ≤ 65536) (a : Nat)
    (h : a < jbase ∨ jbase + 65536 ≤ a) :
    appendTx oracle recs n jbase used d a = d a := by
  simp only [appendTx]
  split
  · split
    · exact writeRecs_out _ _ _ _ _ _ (by omega)
    · rw [writeBytesF_out _ _ _ _ _ (by omega)]
      exact writeRecs_out _ _ _ _ _ _ (by omega)
  · rw [writeBytesF_out _ _ _ _ _ (by omega)]
    split
    · exact writeRecs_out _ _ _ _ _ _ (by omega)
    · rw [writeBytesF_out _ _ _ _ _ (by omega)]
      exact writeRecs_out _ _ _ _ _ _ (by omega)

set_option maxHeartbeats 1600000 in
/-- A successful `do_create` produced its image by `appendTx` on a
record list that passed the journal-overflow check. -/
theorem do_create_success_shape (sb : SB) (oracle : Nat → Bool) (disk : Disk)
    (fname : List Nat) (chosen : Nat) (d' : Disk)
    (h : do_create sb oracle disk fname = .success chosen d') :
    ∃ recs n, usedOf sb disk + (recs.length * 4104 + 4) ≤ 65536 ∧
      d' = appendTx oracle recs n (sb.journal_block * 4096) (usedOf sb disk) disk := by
  unfold do_create createRest at h
  repeat (any_goals split at h)
  all_goals
    first
      | exact CreateOutcome.noConfusion h
      | (injection h with h1 h2
         refine ⟨_, _, ?_, h2.symm⟩
         omega)

/-- The frame of a successful create: every byte outside the 16-block
journal region is untouched. -/
theorem create_success_frame (sb : SB) (oracle : Nat → Bool) (disk : Disk)
    (fname : List Nat) (chosen : Nat) (d' : Disk)
    (h : do_create sb oracle disk fname = .success chosen d') (a : Nat)
    (ha : a < sb.journal_block * 4096 ∨ sb.journal_block * 4096 + 65536 ≤ a) :
    d' a = disk a := by
  obtain ⟨recs, n, hfit, hd⟩ := do_create_success_shape sb oracle disk fname chosen d' h
  rw [hd]
  exact appendTx_out oracle recs n _ _ disk hfit a ha



/-! ## C8: what the validator's "." checks do and do not report -/

theorem hasStray_false (bm : Nat → Nat) : ∀ (n bit : Nat),
    (∀ k, k < n → bTest bm (bit + k) ≠ 1) → hasStray bm n bit = false := by
  intro n
  induction n with
  | zero => intro bit _; rfl
  | succ m ih =>
    intro bit h
    simp only [hasStray]
    rw [if_neg (by simpa using h 0 (by omega))]
    apply ih
    intro k hk
    have h1 := h (1 + k) (by omega)
    rwa [← Nat.add_assoc] at h1

theorem twoDot_ibm_tail : bitmapTailErrs (blockFn twoDotDisk 17) 64 = 0 := by
  unfold bitmapTailErrs
  rw [hasStray_false]
  · rfl
  · intro k hk
    unfold bTest blockFn byteAt twoDotDisk
    rw [if_neg (by omega), if_neg (by omega), if_pos (by omega), if_neg (by omega)]
    simp

theorem twoDot_dbm_tail : bitmapTailErrs (blockFn twoDotDisk 18) 64 = 0 := by
  unfold bitmapTailErrs
  rw [hasStray_false]
  · rfl
  · intro k hk
    unfold bTest blockFn byteAt twoDotDisk
    rw [if_neg (by omega), if_neg (by omega), if_neg (by omega), if_pos (by omega),
      if_neg (by omega)]
    simp

/-- `validatorCore` vanishes when each of its seven summands does. -/
theorem validatorCore_eq_zero (sb : SB) (ibm dbm ia : Nat → Nat) (rdB : Nat → Nat → Nat)
    (h5 : vSuperblockErrs sb = 0)
    (h1 : (vLoop rdB ia ibm sb.inode_count sb.inode_count 0 initVState).err = 0)
    (h2 : linkErrs ia (vLoop rdB ia ibm sb.inode_count sb.inode_count 0 initVState).refs
      sb.inode_count 0 = 0)
    (h3 : ibmAgreeErrs ia ibm sb.inode_count 0 = 0)
    (hti : bitmapTailErrs ibm sb.inode_count = 0)
    (h4 : dbmAgreeErrs dbm (vLoop rdB ia ibm sb.inode_count sb.inode_count 0 initVState).refd
      64 0 = 0)
    (htd : bitmapTailErrs dbm 64 = 0) :
    validatorCore sb ibm dbm ia rdB = 0 := by
  show vSuperblockErrs sb +
      (vLoop rdB ia ibm sb.inode_count sb.inode_count 0 initVState).err +
      linkErrs ia (vLoop rdB ia ibm sb.inode_count sb.inode_count 0 initVState).refs
        sb.inode_count 0 +
      ibmAgreeErrs ia ibm sb.inode_count 0 +
      bitmapTailErrs ibm sb.inode_count +
      dbmAgreeErrs dbm (vLoop rdB ia ibm sb.inode_count sb.inode_count 0 initVState).refd
        64 0 +
      bitmapTailErrs dbm 64 = 0
  rw [h5, h1, h2, h3, hti, h4, htd]

set_option maxRecDepth 4000 in
set_option maxHeartbeats 2000000 in
theorem c8_counterexample_two_dots_unreported :
    validatorErrors twoDotDisk = 0 ∧
    inoType (fun o => byteAt twoDotDisk (19 * 4096 + o)) 0 = 2 ∧
    inoSize (fun o => byteAt twoDotDisk (19 * 4096 + o)) 0 = 96 ∧
    inoDirect (fun o => byteAt twoDotDisk (19 * 4096 + o)) 0 0 = 21 ∧
    isDotEnt (blockFn twoDotDisk 21) 0 ∧ isDotEnt (blockFn twoDotDisk 21) 1 ∧
    deIno (blockFn twoDotDisk 21) 0 = 0 ∧ deIno (blockFn twoDotDisk 21) 1 = 0 := by
  refine ⟨?_, by decide, by decide, by decide, by decide, by decide, by decide, by decide⟩
  have hic : (parseSB twoDotDisk).inode_count = 64 := by decide
  show validatorCore (parseSB twoDotDisk) (blockFn twoDotDisk 17) (blockFn twoDotDisk 18)
    (fun o => byteAt twoDotDisk (19 * 4096 + o)) (fun blk => blockFn twoDotDisk blk) = 0
  refine validatorCore_eq_zero _ _ _ _ _ (by decide) ?_ ?_ ?_ ?_ ?_ ?_
  · rw [hic]
    decide
  · rw [hic]
    decide
  · rw [hic]
    decide
  · rw [hic]
    exact twoDot_ibm_tail
  · rw [hic]
    decide
  · exact twoDot_dbm_tail


theorem entryStep_err_le (blk : Nat → Nat) (i : Nat) (used : Nat → Bool)
    (icount e : Nat) (s : DirScan) : s.err ≤ (entryStep blk i used icount e s).err := by
  unfold entryStep
  repeat' split
  all_goals (try dsimp only)
  all_goals omega

theorem scanEntries_err_le (blk : Nat → Nat) (i : Nat) (used : Nat → Bool)
    (icount : Nat) : ∀ (n e : Nat) (s : DirScan),
    s.err ≤ (scanEntries blk i used icount n e s).err := by
  intro n
  induction n with
  | zero => intro e s; simp [scanEntries]
  | succ m ih =>
    intro e s
    simp only [scanEntries]
    exact Nat.le_trans (entryStep_err_le blk i used icount e s) (ih (e + 1) _)

theorem entryStep_err_wrongdot (blk : Nat → Nat) (i : Nat) (used : Nat → Bool)
    (icount e : Nat) (s : DirScan) :
    s.err + (if ¬(deIno blk e = 0 ∧ blk (32 * e + 4) = 0) ∧ deIno blk e < icount ∧
        nameNul blk e = true ∧ blk (32 * e + 4) ≠ 0 ∧ isDotEnt blk e ∧ deIno blk e ≠ i
      then 1 else 0) ≤ (entryStep blk i used icount e s).err := by
  by_cases hc : ¬(deIno blk e = 0 ∧ blk (32 * e + 4) = 0) ∧ deIno blk e < icount ∧
      nameNul blk e = true ∧ blk (32 * e + 4) ≠ 0 ∧ isDotEnt blk e ∧ deIno blk e ≠ i
  · rw [if_pos hc]
    obtain ⟨h1, h2, h3, h4, h5, h6⟩ := hc
    unfold entryStep
    rw [if_neg h1, if_neg (by omega), if_neg (by rw [h3]; exact fun h => h rfl),
      if_neg h4, if_pos h5]
    try dsimp only
    rw [if_neg h6]
    split <;> omega
  · rw [if_neg hc]
    rw [Nat.add_zero]
    exact entryStep_err_le blk i used icount e s

theorem scanEntries_err_wrongdots (blk : Nat → Nat) (i : Nat) (used : Nat → Bool)
    (icount : Nat) : ∀ (n e : Nat) (s : DirScan),
    s.err + wrongDotEntries blk i icount n e ≤ (scanEntries blk i used icount n e s).err := by
  intro n
  induction n with
  | zero => intro e s; simp [wrongDotEntries, scanEntries]
  | succ m ih =>
    intro e s
    have h1 := entryStep_err_wrongdot blk i used icount e s
    have h2 := ih (e + 1) (entryStep blk i used icount e s)
    simp only [wrongDotEntries, scanEntries] at *
    omega

theorem checkDirLoop_err_wrongdots (rdB : Nat → Nat → Nat) (dirp : Nat → Nat)
    (i : Nat) (used : Nat → Bool) (icount : Nat) : ∀ (n d rem : Nat) (s : DirScan),
    s.err + wrongDotsLoop rdB dirp i icount n d rem ≤
      (checkDirLoop rdB dirp i used icount n d rem s).1.err := by
  intro n
  induction n with
  | zero => intro d rem s; simp [wrongDotsLoop, checkDirLoop]
  | succ m ih =>
    intro d rem s
    by_cases h1 : rem = 0
    · simp [wrongDotsLoop, checkDirLoop, h1]
    · by_cases h2 : dirp d = 0
      · simp only [wrongDotsLoop, checkDirLoop, if_neg h1, if_pos h2]
        try dsimp only
        omega
      · simp only [wrongDotsLoop, checkDirLoop, if_neg h1, if_neg h2]
        have h3 := scanEntries_err_wrongdots (rdB (dirp d)) i used icount
          (min rem 4096 / 32) 0 s
        have h4 := ih (d + 1) (rem - min rem 4096)
          (scanEntries (rdB (dirp d)) i used icount (min rem 4096 / 32) 0 s)
        omega

theorem checkDirLoop_early_err (rdB : Nat → Nat → Nat) (dirp : Nat → Nat)
    (i : Nat) (used : Nat → Bool) (icount : Nat) : ∀ (n d rem : Nat) (s : DirScan),
    (checkDirLoop rdB dirp i used icount n d rem s).2.1 = true →
    s.err + 1 ≤ (checkDirLoop rdB dirp i used icount n d rem s).1.err := by
  intro n
  induction n with
  | zero => intro d rem s h; exact absurd h (by simp [checkDirLoop])
  | succ m ih =>
    intro d rem s h
    by_cases h1 : rem = 0
    · rw [checkDirLoop, if_pos h1] at h
      exact absurd h (by simp)
    · by_cases h2 : dirp d = 0
      · rw [checkDirLoop, if_neg h1, if_pos h2]
        try dsimp only
        try omega
      · rw [checkDirLoop, if_neg h1, if_neg h2] at h ⊢
        have h3 := scanEntries_err_le (rdB (dirp d)) i used icount (min rem 4096 / 32) 0 s
        have h4 := ih (d + 1) (rem - min rem 4096)
          (scanEntries (rdB (dirp d)) i used icount (min rem 4096 / 32) 0 s) h
        omega

theorem c8_validator_dot_presence_and_self_reference (rdB : Nat → Nat → Nat)
    (dirp : Nat → Nat) (sz i : Nat) (used : Nat → Bool) (icount : Nat)
    (h0 : (checkDirectory rdB dirp sz i used icount).1 = 0) (hsz : 0 < sz) :
    (checkDirLoop rdB dirp i used icount 8 0 sz initScan).1.sawDot = true ∧
    (checkDirLoop rdB dirp i used icount 8 0 sz initScan).1.sawDotdot = true ∧
    wrongDotsLoop rdB dirp i icount 8 0 sz = 0 := by
  unfold checkDirectory at h0
  by_cases hmod : sz % 32 ≠ 0
  · rw [if_pos hmod] at h0
    simp at h0
  · rw [if_neg hmod] at h0
    by_cases hearly : (checkDirLoop rdB dirp i used icount 8 0 sz initScan).2.1 = true
    · rw [if_pos hearly] at h0
      have h0' : (checkDirLoop rdB dirp i used icount 8 0 sz initScan).1.err = 0 := h0
      have h1 := checkDirLoop_early_err rdB dirp i used icount 8 0 sz initScan hearly
      rw [show initScan.err = 0 from rfl] at h1
      omega
    · rw [if_neg hearly] at h0
      have h0' : (checkDirLoop rdB dirp i used icount 8 0 sz initScan).1.err +
          (if (checkDirLoop rdB dirp i used icount 8 0 sz initScan).2.2 ≠ 0 then 1 else 0) +
          (if 0 < sz ∧ (checkDirLoop rdB dirp i used icount 8 0 sz initScan).1.sawDot = false
            then 1 else 0) +
          (if 0 < sz ∧ (checkDirLoop rdB dirp i used icount 8 0 sz initScan).1.sawDotdot = false
            then 1 else 0) = 0 := h0
      clear h0
      have hw := checkDirLoop_err_wrongdots rdB dirp i used icount 8 0 sz initScan
      rw [show initScan.err = 0 from rfl] at hw
      by_cases hd : (checkDirLoop rdB dirp i used icount 8 0 sz initScan).1.sawDot = true
      · by_cases hdd :
          (checkDirLoop rdB dirp i used icount 8 0 sz initScan).1.sawDotdot = true
        · refine ⟨hd, hdd, ?_⟩
          omega
        · exfalso
          rw [if_pos (show 0 < sz ∧
              (checkDirLoop rdB dirp i used icount 8 0 sz initScan).1.sawDotdot = false from
              ⟨hsz, by simpa using hdd⟩)] at h0'
          omega
      · exfalso
        rw [if_pos (show 0 < sz ∧
            (checkDirLoop rdB dirp i used icount 8 0 sz initScan).1.sawDot = false from
            ⟨hsz, by simpa using hd⟩)] at h0'
        omega

/-- Witness for the amended C8 theorem: the fresh image's root directory
(size 64, entries "." and "..") passes `check_directory` with zero
violations, so both flags are set and no wrong "." entry exists. -/
theorem c8_amended_witness :
    (checkDirLoop (fun blk => blockFn (mkfsDisk 0) blk)
      (fun k => inoDirect (fun o => byteAt (mkfsDisk 0) (19 * 4096 + o)) 0 k) 0
      (fun jx => inoType (fun o => byteAt (mkfsDisk 0) (19 * 4096 + o)) jx != 0) 64
      8 0 64 initScan).1.sawDot = true ∧
    (checkDirLoop (fun blk => blockFn (mkfsDisk 0) blk)
      (fun k => inoDirect (fun o => byteAt (mkfsDisk 0) (19 * 4096 + o)) 0 k) 0
      (fun jx => inoType (fun o => byteAt (mkfsDisk 0) (19 * 4096 + o)) jx != 0) 64
      8 0 64 initScan).1.sawDotdot = true ∧
    wrongDotsLoop (fun blk => blockFn (mkfsDisk 0) blk)
      (fun k => inoDirect (fun o => byteAt (mkfsDisk 0) (19 * 4096 + o)) 0 k) 0 64
      8 0 64 = 0 :=
  c8_validator_dot_presence_and_self_reference _ _ 64 0 _ 64 (by decide) (by norm_num)

/-! ## C4: create's frame and the validator count -/

/-- Two block-readers that agree on every block a directory walk can
touch give the same `checkDirLoop` result. -/
theorem checkDirLoop_congr (rdB rdB' : Nat → Nat → Nat) (dirp : Nat → Nat) (i : Nat)
    (used : Nat → Bool) (icount : Nat) : ∀ (n d rem : Nat) (s : DirScan),
    (∀ k, d ≤ k → k < d + n → dirp k ≠ 0 → rdB' (dirp k) = rdB (dirp k)) →
    checkDirLoop rdB' dirp i used icount n d rem s =
    checkDirLoop rdB dirp i used icount n d rem s := by
  intro n
  induction n with
  | zero => intro d rem s _; rfl
  | succ m ih =>
    intro d rem s h
    by_cases h1 : rem = 0
    · simp only [checkDirLoop, if_pos h1]
    · by_cases h2 : dirp d = 0
      · simp only [checkDirLoop, if_neg h1, if_pos h2]
      · simp only [checkDirLoop, if_neg h1, if_neg h2]
        rw [h d (Nat.le_refl d) (by omega) h2]
        exact ih (d + 1) (rem - min rem 4096)
          (scanEntries (rdB (dirp d)) i used icount (min rem 4096 / 32) 0 s)
          (fun k hk1 hk2 hk3 => h k (by omega) (by omega) hk3)

/-- `checkDirectory` congruence in the block reader. -/
theorem checkDirectory_congr (rdB rdB' : Nat → Nat → Nat) (dirp : Nat → Nat)
    (sz i : Nat) (used : Nat → Bool) (icount : Nat)
    (h : ∀ k, k < 8 → dirp k ≠ 0 → rdB' (dirp k) = rdB (dirp k)) :
    checkDirectory rdB' dirp sz i used icount = checkDirectory rdB dirp sz i used icount := by
  have hl : checkDirLoop rdB' dirp i used icount 8 0 sz initScan =
      checkDirLoop rdB dirp i used icount 8 0 sz initScan :=
    checkDirLoop_congr rdB rdB' dirp i used icount 8 0 sz initScan
      (fun k h1 h2 h3 => h k (by omega) h3)
  simp only [checkDirectory, hl]

/-- `inodeStep` congruence in the block reader. -/
theorem inodeStep_congr (rdB rdB' : Nat → Nat → Nat) (ia ibm : Nat → Nat)
    (icount i : Nat) (st : VState)
    (h : ∀ k, k < 8 → inoDirect ia i k ≠ 0 →
      rdB' (inoDirect ia i k) = rdB (inoDirect ia i k)) :
    inodeStep rdB' ia ibm icount i st = inodeStep rdB ia ibm icount i st := by
  have hcd : checkDirectory rdB' (fun k => inoDirect ia i k) (inoSize ia i) i
      (fun jx => inoType ia jx != 0) icount =
      checkDirectory rdB (fun k => inoDirect ia i k) (inoSize ia i) i
      (fun jx => inoType ia jx != 0) icount :=
    checkDirectory_congr rdB rdB' (fun k => inoDirect ia i k) (inoSize ia i) i
      (fun jx => inoType ia jx != 0) icount h
  simp only [inodeStep, hcd]

/-- `vLoop` congruence in the block reader. -/
theorem vLoop_congr (rdB rdB' : Nat → Nat → Nat) (ia ibm : Nat → Nat) (icount : Nat) :
    ∀ (n i : Nat) (st : VState),
    (∀ jx, i ≤ jx → jx < i + n → ∀ k, k < 8 → inoDirect ia jx k ≠ 0 →
      rdB' (inoDirect ia jx k) = rdB (inoDirect ia jx k)) →
    vLoop rdB' ia ibm icount n i st = vLoop rdB ia ibm icount n i st := by
  intro n
  induction n with
  | zero => intro i st _; rfl
  | succ m ih =>
    intro i st h
    simp only [vLoop]
    rw [inodeStep_congr rdB rdB' ia ibm icount i st (h i (Nat.le_refl i) (by omega))]
    exact ih (i + 1) (inodeStep rdB ia ibm icount i st)
      (fun jx h1 h2 => h jx (by omega) (by omega))

/-- `validatorCore` congruence in the block reader. -/
theorem validatorCore_congr (sb : SB) (ibm dbm ia : Nat → Nat) (rdB rdB' : Nat → Nat → Nat)
    (h : ∀ jx, jx < sb.inode_count → ∀ k, k < 8 → inoDirect ia jx k ≠ 0 →
      rdB' (inoDirect ia jx k) = rdB (inoDirect ia jx k)) :
    validatorCore sb ibm dbm ia rdB' = validatorCore sb ibm dbm ia rdB := by
  have hv : vLoop rdB' ia ibm sb.inode_count sb.inode_count 0 initVState =
      vLoop rdB ia ibm sb.inode_count sb.inode_count 0 initVState :=
    vLoop_congr rdB rdB' ia ibm sb.inode_count sb.inode_count 0 initVState
      (fun jx h1 h2 => h jx (by omega))
  simp only [validatorCore, hv]

/-- If an image changes only inside the journal byte range
`[4096, 69632)` and every direct pointer avoids the journal blocks, the
validator reports the same violation count. -/
theorem validatorErrors_frame (d d' : Disk)
    (hlow : ∀ a, a < 4096 → d' a = d a)
    (hhigh : ∀ a, 69632 ≤ a → d' a = d a)
    (hptr : dirPtrsAvoidJournal d) :
    validatorErrors d' = validatorErrors d := by
  have hb : ∀ a, a < 4096 → byteAt d' a = byteAt d a := by
    intro a ha
    unfold byteAt
    rw [hlow a ha]
  have hbh : ∀ a, 69632 ≤ a → byteAt d' a = byteAt d a := by
    intro a ha
    unfold byteAt
    rw [hhigh a ha]
  have hsb : parseSB d' = parseSB d := by
    unfold parseSB
    rw [hb 0 (by omega), hb 1 (by omega), hb 2 (by omega), hb 3 (by omega), hb 4 (by omega), hb 5 (by omega), hb 6 (by omega), hb 7 (by omega), hb 8 (by omega), hb 9 (by omega), hb 10 (by omega), hb 11 (by omega), hb 12 (by omega), hb 13 (by omega), hb 14 (by omega), hb 15 (by omega), hb 16 (by omega), hb 17 (by omega), hb 18 (by omega), hb 19 (by omega), hb 20 (by omega), hb 21 (by omega), hb 22 (by omega), hb 23 (by omega), hb 24 (by omega), hb 25 (by omega), hb 26 (by omega), hb 27 (by omega), hb 28 (by omega), hb 29 (by omega), hb 30 (by omega), hb 31 (by omega), hb 32 (by omega), hb 33 (by omega), hb 34 (by omega), hb 35 (by omega)]
  have hibm : blockFn d' 17 = blockFn d 17 := by
    funext o
    unfold blockFn
    exact hbh (17 * 4096 + o) (by omega)
  have hdbm : blockFn d' 18 = blockFn d 18 := by
    funext o
    unfold blockFn
    exact hbh (18 * 4096 + o) (by omega)
  have hia : (fun o => byteAt d' (19 * 4096 + o)) = (fun o => byteAt d (19 * 4096 + o)) := by
    funext o
    exact hbh (19 * 4096 + o) (by omega)
  unfold validatorErrors
  rw [hsb, hibm, hdbm, hia]
  apply validatorCore_congr
  intro jx hjx k hk hne
  rcases hptr jx hjx k hk with hz | hz
  · exact absurd hz hne
  · have hge : 17 ≤ inoDirect (fun o => byteAt d (19 * 4096 + o)) jx k := by omega
    show blockFn d' (inoDirect (fun o => byteAt d (19 * 4096 + o)) jx k) =
      blockFn d (inoDirect (fun o => byteAt d (19 * 4096 + o)) jx k)
    funext o
    unfold blockFn
    exact hbh _ (by
      have : 17 * 4096 ≤ inoDirect (fun o => byteAt d (19 * 4096 + o)) jx k * 4096 :=
        Nat.mul_le_mul_right 4096 hge
      omega)

/-- C4: a successful `create` changes bytes only inside the 16-block
journal region starting at `journal_block`; consequently, on the
standard geometry (`journal_block = 1`) and for an image whose
directory walks stay out of the journal blocks, running the validator
right after the create (no install) reports the same violation count
as before it. -/
theorem c4_create_touches_only_journal_validator_count_unchanged
    (disk : Disk) (fname : List Nat) (chosen : Nat) (d' : Disk)
    (h : createImage noFault disk fname = .success chosen d') :
    (∀ a, a < (parseSB disk).journal_block * 4096 ∨
        (parseSB disk).journal_block * 4096 + 65536 ≤ a → d' a = disk a) ∧
    ((parseSB disk).journal_block = 1 → dirPtrsAvoidJournal disk →
      validatorErrors d' = validatorErrors disk) := by
  have hframe : ∀ a, a < (parseSB disk).journal_block * 4096 ∨
      (parseSB disk).journal_block * 4096 + 65536 ≤ a → d' a = disk a :=
    fun a ha => create_success_frame (parseSB disk) noFault disk fname chosen d' h a ha
  refine ⟨hframe, fun hjb hptr => ?_⟩
  apply validatorErrors_frame
  · intro a ha
    exact hframe a (Or.inl (by rw [hjb]; omega))
  · intro a ha
    exact hframe a (Or.inr (by rw [hjb]; omega))
  · exact hptr

/-- Witness for C4 at a concrete input: `create "a"` on the fresh
`mkfs` image succeeds, the validator count is unchanged, and byte 0 is
untouched. -/
theorem c4_witness :
    (createImage noFault (mkfsDisk 0) [97]).isOk = true ∧
    validatorErrors ((createImage noFault (mkfsDisk 0) [97]).getDisk (mkfsDisk 0)) =
      validatorErrors (mkfsDisk 0) ∧
    (createImage noFault (mkfsDisk 0) [97]).getDisk (mkfsDisk 0) 0 = mkfsDisk 0 0 := by
  have hok : (createImage noFault (mkfsDisk 0) [97]).isOk = true := by decide
  cases hres : createImage noFault (mkfsDisk 0) [97] with
  | success chosen d' =>
    have hmain := c4_create_touches_only_journal_validator_count_unchanged
      (mkfsDisk 0) [97] chosen d' hres
    refine ⟨rfl, ?_, ?_⟩
    · show validatorErrors d' = validatorErrors (mkfsDisk 0)
      exact hmain.2 (by decide) (by decide)
    · show d' 0 = mkfsDisk 0 0
      exact hmain.1 0 (Or.inl (by decide))
  | fatal =>
    rw [hres] at hok
    simp [CreateOutcome.isOk] at hok
  | silentReturn d =>
    rw [hres] at hok
    simp [CreateOutcome.isOk] at hok
  | noFreeInodes d =>
    rw [hres] at hok
    simp [CreateOutcome.isOk] at hok
  | dirFull d =>
    rw [hres] at hok
    simp [CreateOutcome.isOk] at hok
  | journalFull d =>
    rw [hres] at hok
    simp [CreateOutcome.isOk] at hok

/-! ### The free-slot searches return the first free slot -/

/-- `find-free-inode` returns the first clear bit at or after `i`. -/
theorem findFreeInodeAux_first (bm : Nat → Nat) : ∀ (n i t : Nat), i ≤ t → t < i + n →
    (∀ m, i ≤ m → m < t → bm (m / 8) &&& (1 <<< (m % 8)) ≠ 0) →
    bm (t / 8) &&& (1 <<< (t % 8)) = 0 →
    findFreeInodeAux bm n i = some t := by
  intro n
  induction n with
  | zero => intro i t h1 h2 _ _; omega
  | succ nn ih =>
    intro i t h1 h2 hset hclr
    by_cases hit : i = t
    · subst hit
      simp only [findFreeInodeAux, if_pos hclr]
    · have hne : bm (i / 8) &&& (1 <<< (i % 8)) ≠ 0 := hset i (Nat.le_refl i) (by omega)
      simp only [findFreeInodeAux, if_neg hne]
      exact ih (i + 1) t (by omega) (by omega) (fun m hm1 hm2 => hset m (by omega) hm2) hclr

/-- `find-free-dirent` returns the first free entry at or after `i`. -/
theorem findFreeDirentAux_first (db : Nat → Nat) : ∀ (n i t : Nat), i ≤ t → t < i + n →
    (∀ m, i ≤ m → m < t →
      ¬(le32 (db (32*m)) (db (32*m+1)) (db (32*m+2)) (db (32*m+3)) = 0 ∧ db (32*m+4) = 0)) →
    (le32 (db (32*t)) (db (32*t+1)) (db (32*t+2)) (db (32*t+3)) = 0 ∧ db (32*t+4) = 0) →
    findFreeDirentAux db n i = some t := by
  intro n
  induction n with
  | zero => intro i t h1 h2 _ _; omega
  | succ nn ih =>
    intro i t h1 h2 hused hfree
    by_cases hit : i = t
    · subst hit
      simp only [findFreeDirentAux, if_pos hfree]
    · have hne := hused i (Nat.le_refl i) (by omega)
      simp only [findFreeDirentAux, if_neg hne]
      exact ih (i + 1) t (by omega) (by omega) (fun m hm1 hm2 => hused m (by omega) hm2) hfree

/-! ### Bit arithmetic of the inode bitmap -/

/-- Testing bit `m` of the bits-`0..k`-set bitmap. -/
theorem ibmByteC9_and (k m : Nat) :
    ibmByteC9 k (m / 8) &&& (1 <<< (m % 8)) = if m ≤ k then 2 ^ (m % 8) else 0 := by
  have e1 : ibmByteC9 k (m / 8) = (2 ^ (k + 1) - 1) >>> (8 * (m / 8)) % 2 ^ 8 := by
    rw [ibmByteC9, Nat.shiftRight_eq_div_pow, pow_mul]
    norm_num
  by_cases hmk : m ≤ k
  · rw [if_pos hmk]
    apply Nat.eq_of_testBit_eq
    intro b
    rw [Nat.testBit_and, e1, Nat.shiftLeft_eq, one_mul, Nat.testBit_mod_two_pow,
      Nat.testBit_shiftRight, Nat.testBit_two_pow_sub_one, Nat.testBit_two_pow]
    rw [Bool.eq_iff_iff]
    simp only [Bool.and_eq_true, decide_eq_true_eq]
    omega
  · rw [if_neg hmk]
    apply Nat.eq_of_testBit_eq
    intro b
    rw [Nat.testBit_and, e1, Nat.shiftLeft_eq, one_mul, Nat.testBit_mod_two_pow,
      Nat.testBit_shiftRight, Nat.testBit_two_pow_sub_one, Nat.testBit_two_pow,
      Nat.zero_testBit]
    rw [Bool.eq_iff_iff]
    simp only [Bool.and_eq_true, decide_eq_true_eq, Bool.false_eq_true, iff_false]
    omega

/-- Setting bit `k+1` in the byte that holds it. -/
theorem ibmByteC9_succ_eq (k : Nat) :
    ibmByteC9 k ((k + 1) / 8) ||| (1 <<< ((k + 1) % 8)) = ibmByteC9 (k + 1) ((k + 1) / 8) := by
  have e1 : ∀ kk, ibmByteC9 kk ((k + 1) / 8) =
      (2 ^ (kk + 1) - 1) >>> (8 * ((k + 1) / 8)) % 2 ^ 8 := by
    intro kk
    rw [ibmByteC9, Nat.shiftRight_eq_div_pow, pow_mul]
    norm_num
  apply Nat.eq_of_testBit_eq
  intro b
  rw [Nat.testBit_or, e1, e1, Nat.shiftLeft_eq, one_mul,
    Nat.testBit_mod_two_pow, Nat.testBit_mod_two_pow,
    Nat.testBit_shiftRight, Nat.testBit_shiftRight,
    Nat.testBit_two_pow_sub_one, Nat.testBit_two_pow_sub_one, Nat.testBit_two_pow]
  rw [Bool.eq_iff_iff]
  simp only [Bool.and_eq_true, Bool.or_eq_true, decide_eq_true_eq]
  omega

/-- Setting bit `k+1` leaves the other bitmap bytes alone. -/
theorem ibmByteC9_succ_ne (k o : Nat) (ho : o ≠ (k + 1) / 8) :
    ibmByteC9 k o = ibmByteC9 (k + 1) o := by
  have e1 : ∀ kk, ibmByteC9 kk o = (2 ^ (kk + 1) - 1) >>> (8 * o) % 2 ^ 8 := by
    intro kk
    rw [ibmByteC9, Nat.shiftRight_eq_div_pow, pow_mul]
    norm_num
  apply Nat.eq_of_testBit_eq
  intro b
  rw [e1, e1, Nat.testBit_mod_two_pow, Nat.testBit_mod_two_pow,
    Nat.testBit_shiftRight, Nat.testBit_shiftRight,
    Nat.testBit_two_pow_sub_one, Nat.testBit_two_pow_sub_one]
  rw [Bool.eq_iff_iff]
  simp only [Bool.and_eq_true, decide_eq_true_eq]
  omega

/-- Bitmap bytes are bytes. -/
theorem ibmByteC9_lt (k o : Nat) : ibmByteC9 k o < 256 := by
  rw [ibmByteC9]
  exact Nat.mod_lt _ (by norm_num)


/-! ### What create's journaling tail leaves in the journal region -/

/-- Payload bytes of a serialized data record. -/
theorem serDataBytes_payload (t : Nat) (buf : Nat → Nat) (o : Nat) :
    serDataBytes t buf (8 + o) = buf o % 256 := by
  unfold serDataBytes
  rw [if_neg (by omega), if_neg (by omega), if_neg (by omega), if_neg (by omega),
    if_neg (by omega)]
  rw [show 8 + o - 8 = o from by omega]

/-- Serialization of an appended record list. -/
theorem serJ_append (xs : List JRec) : ∀ (ys : List JRec) (i : Nat),
    serJ (xs ++ ys) i = if i < serJLen xs then serJ xs i else serJ ys (i - serJLen xs) := by
  induction xs with
  | nil => intro ys i; simp [serJ, serJLen]
  | cons r rest ih =>
    intro ys i
    simp only [List.cons_append, serJ, serJLen, List.append_eq]
    by_cases h1 : i < recLen r
    · rw [if_pos h1, if_pos (by omega), if_pos h1]
    · rw [if_neg h1, if_neg h1, ih]
      by_cases h2 : i - recLen r < serJLen rest
      · rw [if_pos h2, if_pos (by omega)]
      · rw [if_neg h2, if_neg (by omega)]
        congr 1
        omega

/-- Serialized length of a Data-record list. -/
theorem serJLen_dataRecsOf (l : List (Nat × (Nat → Nat))) :
    serJLen (dataRecsOf l) = l.length * 4104 := by
  induction l with
  | nil => rfl
  | cons q rest ih =>
    simp only [dataRecsOf] at ih
    simp only [dataRecsOf, List.map_cons, serJLen, recLen, List.length_cons, ih]
    ring

/-- The fault-free record writes store the serialized Data records. -/
theorem writeRecs_in (recs : List (Nat × (Nat → Nat))) : ∀ (n pos : Nat) (d : Disk) (i : Nat),
    i < recs.length * 4104 →
    writeRecs noFault recs n pos d (pos + i) = serJ (dataRecsOf recs) i := by
  induction recs with
  | nil => intro n pos d i h; simp at h
  | cons q rest ih =>
    intro n pos d i h
    obtain ⟨t, buf⟩ := q
    simp only [writeRecs, noFault, Bool.false_eq_true, if_false]
    simp only [dataRecsOf, List.map_cons, serJ, recLen, serJRecByte]
    by_cases h1 : i < 4104
    · rw [if_pos h1]
      rw [writeRecs_out _ _ _ _ _ _ (by omega)]
      exact writeBytesF_in _ _ _ _ _ (by omega) (by omega) |>.trans
        (by rw [show pos + i - pos = i from by omega])
    · rw [if_neg h1]
      rw [show pos + i = pos + 4104 + (i - 4104) from by omega]
      exact ih (n + 1) (pos + 4104) _ (i - 4104) (by simp only [List.length_cons] at h; omega)

/-- The fault-free journaling tail serializes the records then one
Commit at journal offset `used`. -/
theorem appendTx_bytes (recs : List (Nat × (Nat → Nat))) (n jbase used : Nat) (d : Disk)
    (hused : 8 ≤ used) (i : Nat) (hi : i < recs.length * 4104 + 4) :
    appendTx noFault recs n jbase used d (jbase + used + i) =
      serJ (dataRecsOf recs ++ [JRec.commit]) i := by
  simp only [appendTx, noFault, Bool.false_eq_true, if_false]
  rw [writeBytesF_out _ _ _ _ _ (by omega)]
  rw [serJ_append, serJLen_dataRecsOf]
  by_cases hc : i < recs.length * 4104
  · rw [if_pos hc, writeBytesF_out _ _ _ _ _ (by omega)]
    exact writeRecs_in recs n (jbase + used) d i hc
  · rw [if_neg hc, writeBytesF_in _ _ _ _ _ (by omega) (by omega)]
    rw [show jbase + used + i - (jbase + used + recs.length * 4104) = i - recs.length * 4104
      from by omega]
    simp only [serJ, recLen, serJRecByte]
    rw [if_pos (by omega)]

/-- The fault-free journaling tail writes the updated header. -/
theorem appendTx_header (recs : List (Nat × (Nat → Nat))) (n jbase used : Nat) (d : Disk)
    (i : Nat) (hi : i < 8) :
    appendTx noFault recs n jbase used d (jbase + i) =
      headerBytes (used + (recs.length * 4104 + 4)) i := by
  simp only [appendTx, noFault, Bool.false_eq_true, if_false]
  rw [writeBytesF_in _ _ _ _ _ (by omega) (by omega)]
  rw [show jbase + i - jbase = i from by omega]

/-- The scan buffers the Data records of `recs` in order. -/
theorem scanPA_pendOf (l : List (Nat × (Nat → Nat))) : ∀ (pos : Nat) (p a : List (Nat × Nat)),
    scanPA pos (dataRecsOf l) p a = (p ++ pendOf l pos, a) := by
  induction l with
  | nil => intro pos p a; simp [dataRecsOf, scanPA, pendOf]
  | cons q rest ih =>
    intro pos p a
    obtain ⟨t, buf⟩ := q
    simp only [dataRecsOf, List.map_cons, scanPA, pendOf]
    rw [show (dataRecsOf rest = List.map (fun q => JRec.data q.1 q.2) rest) from rfl] at ih
    rw [ih]
    simp

/-- The scan of one committed transaction applies exactly its records. -/
theorem scanPA_txn (l : List (Nat × (Nat → Nat))) (pos : Nat) :
    (scanPA pos (dataRecsOf l ++ [JRec.commit]) [] []).2 = pendOf l pos := by
  rw [scanPA_append, scanPA_pendOf]
  simp [scanPA]

/-- Two images equal on the first 36 bytes parse the same superblock. -/
theorem parseSB_congr (d d2 : Disk) (h : ∀ a, a < 36 → d2 a = d a) :
    parseSB d2 = parseSB d := by
  unfold parseSB byteAt
  rw [h 0 (by omega), h 1 (by omega), h 2 (by omega), h 3 (by omega), h 4 (by omega), h 5 (by omega), h 6 (by omega), h 7 (by omega), h 8 (by omega), h 9 (by omega), h 10 (by omega), h 11 (by omega), h 12 (by omega), h 13 (by omega), h 14 (by omega), h 15 (by omega), h 16 (by omega), h 17 (by omega), h 18 (by omega), h 19 (by omega), h 20 (by omega), h 21 (by omega), h 22 (by omega), h 23 (by omega), h 24 (by omega), h 25 (by omega), h 26 (by omega), h 27 (by omega), h 28 (by omega), h 29 (by omega), h 30 (by omega), h 31 (by omega), h 32 (by omega), h 33 (by omega), h 34 (by omega), h 35 (by omega)]


/-- Header bytes of the image create's journaling tail leaves. -/
theorem appendTx_headerByte (recs : List (Nat × (Nat → Nat))) (n used : Nat) (d : Disk)
    (i : Nat) (hi : i < 8) :
    byteAt (appendTx noFault recs n 4096 used d) (4096 + i) =
      headerBytes (used + (recs.length * 4104 + 4)) i := by
  unfold byteAt
  rw [appendTx_header recs n 4096 used d i hi]
  exact Nat.mod_eq_of_lt (headerBytes_lt _ _)

/-- The journal magic after create's journaling tail. -/
theorem jMagic_appendTx (recs : List (Nat × (Nat → Nat))) (n used : Nat) (d : Disk) :
    jMagic stdSB (appendTx noFault recs n 4096 used d) = JOURNAL_MAGIC := by
  unfold jMagic
  rw [show stdSB.journal_block * 4096 = 4096 from by norm_num [stdSB]]
  have hb0 : byteAt (appendTx noFault recs n 4096 used d) 4096 =
      headerBytes (used + (recs.length * 4104 + 4)) 0 := by
    have := appendTx_headerByte recs n used d 0 (by norm_num)
    simpa using this
  rw [hb0, appendTx_headerByte recs n used d 1 (by norm_num),
    appendTx_headerByte recs n used d 2 (by norm_num),
    appendTx_headerByte recs n used d 3 (by norm_num)]
  rw [show headerBytes (used + (recs.length * 4104 + 4)) 0 = 76 from rfl,
    show headerBytes (used + (recs.length * 4104 + 4)) 1 = 78 from rfl,
    show headerBytes (used + (recs.length * 4104 + 4)) 2 = 82 from rfl,
    show headerBytes (used + (recs.length * 4104 + 4)) 3 = 74 from rfl]
  decide

/-- The journal `nbytes_used` after create's journaling tail. -/
theorem jUsed_appendTx (recs : List (Nat × (Nat → Nat))) (n used : Nat) (d : Disk)
    (hu32 : used + (recs.length * 4104 + 4) < 4294967296) :
    jUsed stdSB (appendTx noFault recs n 4096 used d) =
      used + (recs.length * 4104 + 4) := by
  unfold jUsed
  rw [show stdSB.journal_block * 4096 = 4096 from by norm_num [stdSB]]
  rw [appendTx_headerByte recs n used d 4 (by norm_num),
    appendTx_headerByte recs n used d 5 (by norm_num),
    appendTx_headerByte recs n used d 6 (by norm_num),
    appendTx_headerByte recs n used d 7 (by norm_num)]
  rw [show headerBytes (used + (recs.length * 4104 + 4)) 4 =
      le32byte (used + (recs.length * 4104 + 4)) 0 from rfl,
    show headerBytes (used + (recs.length * 4104 + 4)) 5 =
      le32byte (used + (recs.length * 4104 + 4)) 1 from rfl,
    show headerBytes (used + (recs.length * 4104 + 4)) 6 =
      le32byte (used + (recs.length * 4104 + 4)) 2 from rfl,
    show headerBytes (used + (recs.length * 4104 + 4)) 7 =
      le32byte (used + (recs.length * 4104 + 4)) 3 from rfl]
  rw [le32_le32byte]
  exact Nat.mod_eq_of_lt hu32

/-- Installing the image create's fault-free journaling tail leaves:
the scan applies exactly the logged records, then the journal is
cleared. -/
theorem install_appendTx (recs : List (Nat × (Nat → Nat))) (n : Nat) (d : Disk) (fuel : Nat)
    (hfl : recs.length + 1 < fuel)
    (hfit : 8 + (recs.length * 4104 + 4) ≤ 65536) :
    do_install stdSB fuel (appendTx noFault recs n 4096 8 d) =
      some (clearJournal stdSB (applyPending stdSB
        (fun off => byteAt (appendTx noFault recs n 4096 8 d) (stdSB.journal_block * 4096 + off))
        (pendOf recs 8) (appendTx noFault recs n 4096 8 d))) := by
  have hm := jMagic_appendTx recs n 8 d
  have hu := jUsed_appendTx recs n 8 d (by omega)
  have hslen : serJLen (dataRecsOf recs ++ [JRec.commit]) = recs.length * 4104 + 4 := by
    rw [serJLen_append, serJLen_dataRecsOf]
    rfl
  rw [do_install_scan_eq stdSB fuel _ hm (by rw [hu]; omega)]
  rw [hu]
  rw [scanJournal_serialized _ _ (dataRecsOf recs ++ [JRec.commit]) fuel 8 [] []
    (by
      intro i hilen
      show byteAt (appendTx noFault recs n 4096 8 d)
        (stdSB.journal_block * 4096 + (8 + i)) = serJ (dataRecsOf recs ++ [JRec.commit]) i
      rw [show stdSB.journal_block * 4096 + (8 + i) = 4096 + 8 + i from by
        rw [show stdSB.journal_block = 1 from rfl]
        omega]
      unfold byteAt
      rw [appendTx_bytes recs n 4096 8 d (by omega) i (by rw [hslen] at hilen; exact hilen)]
      exact Nat.mod_eq_of_lt (serJ_lt _ i))
    (by rw [hslen])
    (by
      simp only [List.length_append, dataRecsOf, List.length_map, List.length_cons,
        List.length_nil]
      omega)]
  dsimp only
  rw [scanPA_txn]


/-! ### What create does under the invariant -/

/-- Under the invariant, the free-inode search picks `k+1`. -/
theorem invC9_findFreeInode (k : Nat) (d : Disk) (hk : k + 1 < 64)
    (hibm : ∀ o, o < 8 → blockFn d 17 o = ibmByteC9 k o) :
    findFreeInode (blockFn d 17) 64 = some (k + 1) := by
  unfold findFreeInode
  refine findFreeInodeAux_first (blockFn d 17) 64 0 (k + 1) (Nat.zero_le _) (by omega) ?_ ?_
  · intro m _ hm
    rw [hibm (m / 8) (by omega), ibmByteC9_and, if_pos (by omega)]
    exact (Nat.two_pow_pos _).ne'
  · rw [hibm ((k + 1) / 8) (by omega), ibmByteC9_and, if_neg (by omega)]

/-- Under the invariant, the re-read root inode points at block 21. -/
theorem invC9_rootDirBlk (d : Disk)
    (hroot : ∀ o, 8 ≤ o → o < 12 → blockFn d 19 o = if o = 8 then 21 else 0) :
    rootDirBlkOf stdSB d = 21 := by
  unfold rootDirBlkOf
  rw [show stdSB.inode_start = 19 from rfl]
  rw [hroot 8 (by omega) (by omega), hroot 9 (by omega) (by omega),
    hroot 10 (by omega) (by omega), hroot 11 (by omega) (by omega)]
  norm_num [le32]

/-- Under the invariant, the free-dirent search picks entry `k+2`. -/
theorem invC9_findFreeDirent (k : Nat) (d : Disk) (hk : k ≤ 62)
    (hdir : ∀ e, e < 128 → ∀ jj, jj < 5 → blockFn d 21 (32 * e + jj) = dirHeadByteC9 k e jj) :
    findFreeDirent (blockFn d 21) = some (k + 2) := by
  unfold findFreeDirent
  refine findFreeDirentAux_first (blockFn d 21) 128 0 (k + 2) (Nat.zero_le _) (by omega) ?_ ?_
  · intro m _ hm
    have h0 : blockFn d 21 (32 * m) = dirHeadByteC9 k m 0 := by
      have := hdir m (by omega) 0 (by omega)
      simpa using this
    rw [h0, hdir m (by omega) 1 (by omega), hdir m (by omega) 2 (by omega),
      hdir m (by omega) 3 (by omega), hdir m (by omega) 4 (by omega)]
    by_cases hm2 : m < 2
    · have h4 : dirHeadByteC9 k m 4 = 46 := by
        unfold dirHeadByteC9
        rw [if_pos hm2, if_pos rfl]
      rw [h4]
      intro hcon
      exact absurd hcon.2 (by norm_num)
    · have hj : ∀ jj, jj < 4 → dirHeadByteC9 k m jj = le32byte (m - 1) jj := by
        intro jj hjj
        unfold dirHeadByteC9
        rw [if_neg hm2, if_pos (by omega), if_neg (by omega)]
      rw [hj 0 (by omega), hj 1 (by omega), hj 2 (by omega), hj 3 (by omega), le32_le32byte]
      intro hcon
      obtain ⟨hl, _⟩ := hcon
      rw [Nat.mod_eq_of_lt (by omega)] at hl
      omega
  · have hz : ∀ jj, jj < 5 → dirHeadByteC9 k (k + 2) jj = 0 := by
      intro jj _
      unfold dirHeadByteC9
      rw [if_neg (by omega), if_neg (by omega)]
    have h0 : blockFn d 21 (32 * (k + 2)) = dirHeadByteC9 k (k + 2) 0 := by
      have := hdir (k + 2) (by omega) 0 (by omega)
      simpa using this
    rw [h0, hdir (k + 2) (by omega) 1 (by omega), hdir (k + 2) (by omega) 2 (by omega),
      hdir (k + 2) (by omega) 3 (by omega), hdir (k + 2) (by omega) 4 (by omega)]
    rw [hz 0 (by omega), hz 1 (by omega), hz 2 (by omega), hz 3 (by omega), hz 4 (by omega)]
    exact ⟨by decide, rfl⟩

/-- create under the invariant when the new inode shares the root's
table block (`chosen < 32`): the three-record transaction. -/
theorem createA (k : Nat) (d : Disk) (hk : k + 1 < 32) (hInv : InvC9 k d) :
    do_create stdSB noFault d [97] = CreateOutcome.success (k + 1)
      (appendTx noFault
        [(17, setBitByte (blockFn d 17) (k + 1)),
         (19, bumpRootSize (initInodeSlot (blockFn d 19) (k + 1))),
         (21, putDirent (blockFn d 21) (k + 2) (k + 1) [97])] 5 4096 8 d) := by
  obtain ⟨hsb, hused, hibm, hroot, hdir⟩ := hInv
  have hfind := invC9_findFreeInode k d (by omega) hibm
  have hrdb := invC9_rootDirBlk d hroot
  have hfd := invC9_findFreeDirent k d (by omega) hdir
  have hcond : stdSB.inode_start + (k + 1) / (4096 / 128) = stdSB.inode_start := by
    rw [show stdSB.inode_start = 19 from rfl]
    omega
  unfold do_create
  simp only [noFault, Bool.false_eq_true, if_false]
  rw [show stdSB.inode_bitmap = 17 from rfl, show stdSB.inode_count = 64 from rfl, hfind]
  dsimp only
  rw [if_pos hcond, hcond]
  rw [show stdSB.inode_start = 19 from rfl]
  rw [show (k + 1) % (4096 / 128) = k + 1 from by omega]
  have hrecs : createRecs stdSB d [97] (k + 1) 19
      (bumpRootSize (initInodeSlot (blockFn d 19) (k + 1))) [] (k + 2) =
      [(17, setBitByte (blockFn d 17) (k + 1)),
       (19, bumpRootSize (initInodeSlot (blockFn d 19) (k + 1))),
       (21, putDirent (blockFn d 21) (k + 2) (k + 1) [97])] := by
    unfold createRecs
    rw [hrdb, show stdSB.inode_bitmap = 17 from rfl]
    rfl
  unfold createRest
  simp only [noFault, Bool.false_eq_true, if_false]
  rw [hrdb, hfd]
  dsimp only
  rw [hused, hrecs]
  rw [if_neg (by simp)]
  rw [show stdSB.journal_block * 4096 = 4096 from rfl]

/-- create under the invariant when the new inode lives in the second
table block (`chosen ≥ 32`): the four-record transaction. -/
theorem createB (k : Nat) (d : Disk) (hk1 : 32 ≤ k + 1) (hk2 : k + 1 < 64)
    (hInv : InvC9 k d) :
    do_create stdSB noFault d [97] = CreateOutcome.success (k + 1)
      (appendTx noFault
        [(17, setBitByte (blockFn d 17) (k + 1)),
         (20, initInodeSlot (blockFn d 20) (k + 1 - 32)),
         (19, bumpRootSize (blockFn d 19)),
         (21, putDirent (blockFn d 21) (k + 2) (k + 1) [97])] 6 4096 8 d) := by
  obtain ⟨hsb, hused, hibm, hroot, hdir⟩ := hInv
  have hfind := invC9_findFreeInode k d (by omega) hibm
  have hrdb := invC9_rootDirBlk d hroot
  have hfd := invC9_findFreeDirent k d (by omega) hdir
  have hcond : ¬(stdSB.inode_start + (k + 1) / (4096 / 128) = stdSB.inode_start) := by
    rw [show stdSB.inode_start = 19 from rfl]
    omega
  have h20 : stdSB.inode_start + (k + 1) / (4096 / 128) = 20 := by
    rw [show stdSB.inode_start = 19 from rfl]
    omega
  unfold do_create
  simp only [noFault, Bool.false_eq_true, if_false]
  rw [show stdSB.inode_bitmap = 17 from rfl, show stdSB.inode_count = 64 from rfl, hfind]
  dsimp only
  rw [if_neg hcond, h20]
  rw [show stdSB.inode_start = 19 from rfl]
  rw [show (k + 1) % (4096 / 128) = k + 1 - 32 from by omega]
  have hrecs : createRecs stdSB d [97] (k + 1) 20
      (initInodeSlot (blockFn d 20) (k + 1 - 32))
      [(19, bumpRootSize (blockFn d 19))] (k + 2) =
      [(17, setBitByte (blockFn d 17) (k + 1)),
       (20, initInodeSlot (blockFn d 20) (k + 1 - 32)),
       (19, bumpRootSize (blockFn d 19)),
       (21, putDirent (blockFn d 21) (k + 2) (k + 1) [97])] := by
    unfold createRecs
    rw [hrdb, show stdSB.inode_bitmap = 17 from rfl]
    rfl
  unfold createRest
  simp only [noFault, Bool.false_eq_true, if_false]
  rw [hrdb, hfd]
  dsimp only
  rw [hused, hrecs]
  rw [if_neg (by simp)]
  rw [show stdSB.journal_block * 4096 = 4096 from rfl]


/-! ### Reading back the installed state -/

/-- Unfolding one pending write. -/
theorem applyPending_cons (sb : SB) (j : Nat → Nat) (t off : Nat) (ws : List (Nat × Nat))
    (d : Disk) :
    applyPending sb j ((t, off) :: ws) d =
      applyPending sb j ws
        (if t < sb.total_blocks then writeBytesF d (t * 4096) 4096 (fun o => j (off + o))
         else d) := rfl

/-- The empty pending list writes nothing. -/
theorem applyPending_nil (sb : SB) (j : Nat → Nat) (d : Disk) :
    applyPending sb j [] d = d := rfl

/-- Serialization: a byte inside the head Data record. -/
theorem serJ_data_head (t : Nat) (buf : Nat → Nat) (rest : List JRec) (i : Nat)
    (h : i < 4104) :
    serJ (JRec.data t buf :: rest) i = serDataBytes t buf i := by
  simp only [serJ, recLen, serJRecByte]
  rw [if_pos h]

/-- Serialization: a byte past the head Data record. -/
theorem serJ_data_skip (t : Nat) (buf : Nat → Nat) (rest : List JRec) (i : Nat)
    (h : 4104 ≤ i) :
    serJ (JRec.data t buf :: rest) i = serJ rest (i - 4104) := by
  simp only [serJ, recLen]
  rw [if_neg (by omega)]

/-- Root-directory head bytes are bytes. -/
theorem dirHeadByteC9_lt (k e jj : Nat) : dirHeadByteC9 k e jj < 256 := by
  unfold dirHeadByteC9
  by_cases h1 : e < 2
  · rw [if_pos h1]
    by_cases h2 : jj = 4
    · rw [if_pos h2]; norm_num
    · rw [if_neg h2]; norm_num
  · rw [if_neg h1]
    by_cases h2 : e < k + 2
    · rw [if_pos h2]
      by_cases h3 : jj = 4
      · rw [if_pos h3]; norm_num
      · rw [if_neg h3]; exact le32byte_lt _ _
    · rw [if_neg h2]; norm_num

/-- Entries other than the new one keep their head bytes. -/
theorem dirHeadByteC9_succ_ne (k e jj : Nat) (he : e ≠ k + 2) :
    dirHeadByteC9 k e jj = dirHeadByteC9 (k + 1) e jj := by
  unfold dirHeadByteC9
  by_cases h1 : e < 2
  · rw [if_pos h1, if_pos h1]
  · rw [if_neg h1, if_neg h1]
    by_cases h2 : e < k + 2
    · rw [if_pos h2, if_pos (show e < k + 1 + 2 from by omega)]
    · rw [if_neg h2, if_neg (show ¬e < k + 1 + 2 from by omega)]


/-- One pair under the invariant, three-record case (`chosen < 32`). -/
theorem stepA (k : Nat) (hk : k + 1 < 32) (fuel : Nat) (hfuel : 6 ≤ fuel)
    (d : Disk) (hInv : InvC9 k d) :
    ∃ d2, pairStep fuel d = some (k + 1, d2) ∧ InvC9 (k + 1) d2 := by
  obtain ⟨hsb, hused, hibm, hroot, hdir⟩ := hInv
  have hca := createA k d hk ⟨hsb, hused, hibm, hroot, hdir⟩
  have hsbA : parseSB (appendTx noFault [(17, setBitByte (blockFn d 17) (k + 1)), (19, bumpRootSize (initInodeSlot (blockFn d 19) (k + 1))), (21, putDirent (blockFn d 21) (k + 2) (k + 1) [97])] 5 4096 8 d) = stdSB :=
    (parseSB_congr d (appendTx noFault [(17, setBitByte (blockFn d 17) (k + 1)), (19, bumpRootSize (initInodeSlot (blockFn d 19) (k + 1))), (21, putDirent (blockFn d 21) (k + 2) (k + 1) [97])] 5 4096 8 d)
      (fun a ha => appendTx_out noFault [(17, setBitByte (blockFn d 17) (k + 1)), (19, bumpRootSize (initInodeSlot (blockFn d 19) (k + 1))), (21, putDirent (blockFn d 21) (k + 2) (k + 1) [97])] 5 4096 8 d (by norm_num) a
        (Or.inl (by omega)))).trans hsb
  have hpend : pendOf [(17, setBitByte (blockFn d 17) (k + 1)), (19, bumpRootSize (initInodeSlot (blockFn d 19) (k + 1))), (21, putDirent (blockFn d 21) (k + 2) (k + 1) [97])] 8 = [(17, 16), (19, 4120), (21, 8224)] := by
    norm_num [pendOf]
  have hinst := install_appendTx [(17, setBitByte (blockFn d 17) (k + 1)), (19, bumpRootSize (initInodeSlot (blockFn d 19) (k + 1))), (21, putDirent (blockFn d 21) (k + 2) (k + 1) [97])] 5 d fuel (by simp only [List.length_cons, List.length_nil]; omega) (by norm_num)
  rw [hpend] at hinst
  have hser : ∀ i, i < 12316 →
      byteAt (appendTx noFault [(17, setBitByte (blockFn d 17) (k + 1)), (19, bumpRootSize (initInodeSlot (blockFn d 19) (k + 1))), (21, putDirent (blockFn d 21) (k + 2) (k + 1) [97])] 5 4096 8 d) (4096 + 8 + i) = serJ [JRec.data 17 (setBitByte (blockFn d 17) (k + 1)), JRec.data 19 (bumpRootSize (initInodeSlot (blockFn d 19) (k + 1))), JRec.data 21 (putDirent (blockFn d 21) (k + 2) (k + 1) [97]), JRec.commit] i := by
    intro i hi
    unfold byteAt
    rw [appendTx_bytes [(17, setBitByte (blockFn d 17) (k + 1)), (19, bumpRootSize (initInodeSlot (blockFn d 19) (k + 1))), (21, putDirent (blockFn d 21) (k + 2) (k + 1) [97])] 5 4096 8 d (by omega) i
      (by simpa using hi)]
    exact Nat.mod_eq_of_lt (serJ_lt _ _)
  refine ⟨clearJournal stdSB (applyPending stdSB (fun off => byteAt (appendTx noFault [(17, setBitByte (blockFn d 17) (k + 1)), (19, bumpRootSize (initInodeSlot (blockFn d 19) (k + 1))), (21, putDirent (blockFn d 21) (k + 2) (k + 1) [97])] 5 4096 8 d) (stdSB.journal_block * 4096 + off)) [(17, 16), (19, 4120), (21, 8224)] (appendTx noFault [(17, setBitByte (blockFn d 17) (k + 1)), (19, bumpRootSize (initInodeSlot (blockFn d 19) (k + 1))), (21, putDirent (blockFn d 21) (k + 2) (k + 1) [97])] 5 4096 8 d)), ?_, ?_, ?_, ?_, ?_, ?_⟩
  · unfold pairStep
    rw [show createImage noFault d [97] = do_create stdSB noFault d [97] from by
      unfold createImage
      rw [hsb]]
    rw [hca]
    dsimp only
    rw [show installImage fuel (appendTx noFault [(17, setBitByte (blockFn d 17) (k + 1)), (19, bumpRootSize (initInodeSlot (blockFn d 19) (k + 1))), (21, putDirent (blockFn d 21) (k + 2) (k + 1) [97])] 5 4096 8 d) = do_install stdSB fuel (appendTx noFault [(17, setBitByte (blockFn d 17) (k + 1)), (19, bumpRootSize (initInodeSlot (blockFn d 19) (k + 1))), (21, putDirent (blockFn d 21) (k + 2) (k + 1) [97])] 5 4096 8 d) from by
      unfold installImage
      rw [hsbA]]
    rw [hinst]
  · -- superblock unchanged
    refine (parseSB_congr d _ ?_).trans hsb
    intro a ha
    unfold clearJournal
    rw [writeBytesF_out _ _ _ _ _
      (Or.inl (by rw [show stdSB.journal_block * 4096 = 4096 from rfl]; omega))]
    rw [applyPending_cons, applyPending_cons, applyPending_cons, applyPending_nil]
    rw [if_pos (by decide), if_pos (by decide), if_pos (by decide)]
    rw [writeBytesF_out _ _ _ _ _ (by omega)]
    rw [writeBytesF_out _ _ _ _ _ (by omega)]
    rw [writeBytesF_out _ _ _ _ _ (by omega)]
    exact appendTx_out noFault [(17, setBitByte (blockFn d 17) (k + 1)), (19, bumpRootSize (initInodeSlot (blockFn d 19) (k + 1))), (21, putDirent (blockFn d 21) (k + 2) (k + 1) [97])] 5 4096 8 d (by norm_num) a (Or.inl (by omega))
  · -- journal header neutral again
    unfold usedOf
    rw [jMagic_clearJournal, if_pos rfl, jUsed_clearJournal]
  · -- inode bitmap: bits 0..k+1
    intro o ho
    show (clearJournal stdSB (applyPending stdSB (fun off => byteAt (appendTx noFault [(17, setBitByte (blockFn d 17) (k + 1)), (19, bumpRootSize (initInodeSlot (blockFn d 19) (k + 1))), (21, putDirent (blockFn d 21) (k + 2) (k + 1) [97])] 5 4096 8 d) (stdSB.journal_block * 4096 + off)) [(17, 16), (19, 4120), (21, 8224)] (appendTx noFault [(17, setBitByte (blockFn d 17) (k + 1)), (19, bumpRootSize (initInodeSlot (blockFn d 19) (k + 1))), (21, putDirent (blockFn d 21) (k + 2) (k + 1) [97])] 5 4096 8 d))) (17 * 4096 + o) % 256 = ibmByteC9 (k + 1) o
    unfold clearJournal
    rw [writeBytesF_out _ _ _ _ _
      (Or.inr (by rw [show stdSB.journal_block * 4096 = 4096 from rfl]; omega))]
    rw [applyPending_cons, applyPending_cons, applyPending_cons, applyPending_nil]
    rw [if_pos (by decide), if_pos (by decide), if_pos (by decide)]
    rw [writeBytesF_out _ _ _ _ _ (by omega)]
    rw [writeBytesF_out _ _ _ _ _ (by omega)]
    rw [writeBytesF_in _ _ _ _ _ (by omega) (by omega)]
    rw [show 17 * 4096 + o - 17 * 4096 = o from by omega]
    show byteAt (appendTx noFault [(17, setBitByte (blockFn d 17) (k + 1)), (19, bumpRootSize (initInodeSlot (blockFn d 19) (k + 1))), (21, putDirent (blockFn d 21) (k + 2) (k + 1) [97])] 5 4096 8 d) (stdSB.journal_block * 4096 + (16 + o)) % 256 = ibmByteC9 (k + 1) o
    rw [show stdSB.journal_block * 4096 + (16 + o) = 4096 + 8 + (8 + o) from by
      rw [show stdSB.journal_block * 4096 = 4096 from rfl]
      omega]
    rw [hser (8 + o) (by omega)]
    rw [serJ_data_head _ _ _ _ (by omega), serDataBytes_payload]
    rw [Nat.mod_mod_of_dvd _ (dvd_refl 256)]
    unfold setBitByte
    by_cases hos : o = (k + 1) / 8
    · rw [if_pos hos, hibm o ho, hos, ibmByteC9_succ_eq]
      exact Nat.mod_eq_of_lt (ibmByteC9_lt _ _)
    · rw [if_neg hos, hibm o ho, ibmByteC9_succ_ne k o hos]
      exact Nat.mod_eq_of_lt (ibmByteC9_lt _ _)
  · -- root inode direct[0] word
    intro o ho8 ho12
    show (clearJournal stdSB (applyPending stdSB (fun off => byteAt (appendTx noFault [(17, setBitByte (blockFn d 17) (k + 1)), (19, bumpRootSize (initInodeSlot (blockFn d 19) (k + 1))), (21, putDirent (blockFn d 21) (k + 2) (k + 1) [97])] 5 4096 8 d) (stdSB.journal_block * 4096 + off)) [(17, 16), (19, 4120), (21, 8224)] (appendTx noFault [(17, setBitByte (blockFn d 17) (k + 1)), (19, bumpRootSize (initInodeSlot (blockFn d 19) (k + 1))), (21, putDirent (blockFn d 21) (k + 2) (k + 1) [97])] 5 4096 8 d))) (19 * 4096 + o) % 256 = if o = 8 then 21 else 0
    unfold clearJournal
    rw [writeBytesF_out _ _ _ _ _
      (Or.inr (by rw [show stdSB.journal_block * 4096 = 4096 from rfl]; omega))]
    rw [applyPending_cons, applyPending_cons, applyPending_cons, applyPending_nil]
    rw [if_pos (by decide), if_pos (by decide), if_pos (by decide)]
    rw [writeBytesF_out _ _ _ _ _ (by omega)]
    rw [writeBytesF_in _ _ _ _ _ (by omega) (by omega)]
    rw [show 19 * 4096 + o - 19 * 4096 = o from by omega]
    show byteAt (appendTx noFault [(17, setBitByte (blockFn d 17) (k + 1)), (19, bumpRootSize (initInodeSlot (blockFn d 19) (k + 1))), (21, putDirent (blockFn d 21) (k + 2) (k + 1) [97])] 5 4096 8 d) (stdSB.journal_block * 4096 + (4120 + o)) % 256 = if o = 8 then 21 else 0
    rw [show stdSB.journal_block * 4096 + (4120 + o) = 4096 + 8 + (4112 + o) from by
      rw [show stdSB.journal_block * 4096 = 4096 from rfl]
      omega]
    rw [hser (4112 + o) (by omega)]
    rw [serJ_data_skip _ _ _ _ (by omega), show 4112 + o - 4104 = 8 + o from by omega]
    rw [serJ_data_head _ _ _ _ (by omega), serDataBytes_payload]
    rw [Nat.mod_mod_of_dvd _ (dvd_refl 256)]
    unfold bumpRootSize
    rw [if_neg (by omega)]
    unfold initInodeSlot
    rw [if_neg (by omega)]
    rw [hroot o ho8 ho12]
    by_cases h8 : o = 8
    · rw [if_pos h8]
    · rw [if_neg h8]
  · -- root directory entries
    intro e he jj hjj
    show (clearJournal stdSB (applyPending stdSB (fun off => byteAt (appendTx noFault [(17, setBitByte (blockFn d 17) (k + 1)), (19, bumpRootSize (initInodeSlot (blockFn d 19) (k + 1))), (21, putDirent (blockFn d 21) (k + 2) (k + 1) [97])] 5 4096 8 d) (stdSB.journal_block * 4096 + off)) [(17, 16), (19, 4120), (21, 8224)] (appendTx noFault [(17, setBitByte (blockFn d 17) (k + 1)), (19, bumpRootSize (initInodeSlot (blockFn d 19) (k + 1))), (21, putDirent (blockFn d 21) (k + 2) (k + 1) [97])] 5 4096 8 d))) (21 * 4096 + (32 * e + jj)) % 256 = dirHeadByteC9 (k + 1) e jj
    unfold clearJournal
    rw [writeBytesF_out _ _ _ _ _
      (Or.inr (by rw [show stdSB.journal_block * 4096 = 4096 from rfl]; omega))]
    rw [applyPending_cons, applyPending_cons, applyPending_cons, applyPending_nil]
    rw [if_pos (by decide), if_pos (by decide), if_pos (by decide)]
    rw [writeBytesF_in _ _ _ _ _ (by omega) (by omega)]
    rw [show 21 * 4096 + (32 * e + jj) - 21 * 4096 = 32 * e + jj from by omega]
    show byteAt (appendTx noFault [(17, setBitByte (blockFn d 17) (k + 1)), (19, bumpRootSize (initInodeSlot (blockFn d 19) (k + 1))), (21, putDirent (blockFn d 21) (k + 2) (k + 1) [97])] 5 4096 8 d) (stdSB.journal_block * 4096 + (8224 + (32 * e + jj))) % 256 =
      dirHeadByteC9 (k + 1) e jj
    rw [show stdSB.journal_block * 4096 + (8224 + (32 * e + jj)) =
        4096 + 8 + (8216 + (32 * e + jj)) from by
      rw [show stdSB.journal_block * 4096 = 4096 from rfl]
      omega]
    rw [hser (8216 + (32 * e + jj)) (by omega)]
    rw [serJ_data_skip _ _ _ _ (by omega),
      show 8216 + (32 * e + jj) - 4104 = 4112 + (32 * e + jj) from by omega]
    rw [serJ_data_skip _ _ _ _ (by omega),
      show 4112 + (32 * e + jj) - 4104 = 8 + (32 * e + jj) from by omega]
    rw [serJ_data_head _ _ _ _ (by omega), serDataBytes_payload]
    rw [Nat.mod_mod_of_dvd _ (dvd_refl 256)]
    unfold putDirent
    by_cases hekk : e = k + 2
    · subst hekk
      rw [if_pos (by omega)]
      by_cases hj4 : jj < 4
      · rw [if_pos (by omega)]
        rw [show 32 * (k + 2) + jj - 32 * (k + 2) = jj from by omega]
        unfold dirHeadByteC9
        rw [if_neg (by omega), if_pos (by omega), if_neg (by omega)]
        rw [show k + 2 - 1 = k + 1 from by omega]
        exact Nat.mod_eq_of_lt (le32byte_lt _ _)
      · have hj : jj = 4 := by omega
        subst hj
        rw [if_neg (by omega)]
        rw [show 32 * (k + 2) + 4 - (32 * (k + 2) + 4) = 0 from by omega]
        have hname : direntNameByte [97] 0 = 97 := by decide
        have hdh : dirHeadByteC9 (k + 1) (k + 2) 4 = 97 := by
          unfold dirHeadByteC9
          rw [if_neg (by omega), if_pos (by omega), if_pos rfl]
        rw [hname, hdh]
    · rw [if_neg (by omega)]
      rw [hdir e he jj hjj, dirHeadByteC9_succ_ne k e jj hekk]
      exact Nat.mod_eq_of_lt (dirHeadByteC9_lt _ _ _)


/-- One pair under the invariant, four-record case (`chosen ≥ 32`). -/
theorem stepB (k : Nat) (hk1 : 32 ≤ k + 1) (hk2 : k + 1 < 64) (fuel : Nat)
    (hfuel : 6 ≤ fuel) (d : Disk) (hInv : InvC9 k d) :
    ∃ d2, pairStep fuel d = some (k + 1, d2) ∧ InvC9 (k + 1) d2 := by
  obtain ⟨hsb, hused, hibm, hroot, hdir⟩ := hInv
  have hcb := createB k d hk1 hk2 ⟨hsb, hused, hibm, hroot, hdir⟩
  have hsbA : parseSB (appendTx noFault [(17, setBitByte (blockFn d 17) (k + 1)), (20, initInodeSlot (blockFn d 20) (k + 1 - 32)), (19, bumpRootSize (blockFn d 19)), (21, putDirent (blockFn d 21) (k + 2) (k + 1) [97])] 6 4096 8 d) = stdSB :=
    (parseSB_congr d (appendTx noFault [(17, setBitByte (blockFn d 17) (k + 1)), (20, initInodeSlot (blockFn d 20) (k + 1 - 32)), (19, bumpRootSize (blockFn d 19)), (21, putDirent (blockFn d 21) (k + 2) (k + 1) [97])] 6 4096 8 d)
      (fun a ha => appendTx_out noFault [(17, setBitByte (blockFn d 17) (k + 1)), (20, initInodeSlot (blockFn d 20) (k + 1 - 32)), (19, bumpRootSize (blockFn d 19)), (21, putDirent (blockFn d 21) (k + 2) (k + 1) [97])] 6 4096 8 d (by norm_num) a
        (Or.inl (by omega)))).trans hsb
  have hpend : pendOf [(17, setBitByte (blockFn d 17) (k + 1)), (20, initInodeSlot (blockFn d 20) (k + 1 - 32)), (19, bumpRootSize (blockFn d 19)), (21, putDirent (blockFn d 21) (k + 2) (k + 1) [97])] 8 = [(17, 16), (20, 4120), (19, 8224), (21, 12328)] := by
    norm_num [pendOf]
  have hinst := install_appendTx [(17, setBitByte (blockFn d 17) (k + 1)), (20, initInodeSlot (blockFn d 20) (k + 1 - 32)), (19, bumpRootSize (blockFn d 19)), (21, putDirent (blockFn d 21) (k + 2) (k + 1) [97])] 6 d fuel
    (by simp only [List.length_cons, List.length_nil]; omega) (by norm_num)
  rw [hpend] at hinst
  have hser : ∀ i, i < 16420 →
      byteAt (appendTx noFault [(17, setBitByte (blockFn d 17) (k + 1)), (20, initInodeSlot (blockFn d 20) (k + 1 - 32)), (19, bumpRootSize (blockFn d 19)), (21, putDirent (blockFn d 21) (k + 2) (k + 1) [97])] 6 4096 8 d) (4096 + 8 + i) = serJ [JRec.data 17 (setBitByte (blockFn d 17) (k + 1)), JRec.data 20 (initInodeSlot (blockFn d 20) (k + 1 - 32)), JRec.data 19 (bumpRootSize (blockFn d 19)), JRec.data 21 (putDirent (blockFn d 21) (k + 2) (k + 1) [97]), JRec.commit] i := by
    intro i hi
    unfold byteAt
    rw [appendTx_bytes [(17, setBitByte (blockFn d 17) (k + 1)), (20, initInodeSlot (blockFn d 20) (k + 1 - 32)), (19, bumpRootSize (blockFn d 19)), (21, putDirent (blockFn d 21) (k + 2) (k + 1) [97])] 6 4096 8 d (by omega) i
      (by simpa using hi)]
    exact Nat.mod_eq_of_lt (serJ_lt _ _)
  refine ⟨clearJournal stdSB (applyPending stdSB (fun off => byteAt (appendTx noFault [(17, setBitByte (blockFn d 17) (k + 1)), (20, initInodeSlot (blockFn d 20) (k + 1 - 32)), (19, bumpRootSize (blockFn d 19)), (21, putDirent (blockFn d 21) (k + 2) (k + 1) [97])] 6 4096 8 d) (stdSB.journal_block * 4096 + off)) [(17, 16), (20, 4120), (19, 8224), (21, 12328)] (appendTx noFault [(17, setBitByte (blockFn d 17) (k + 1)), (20, initInodeSlot (blockFn d 20) (k + 1 - 32)), (19, bumpRootSize (blockFn d 19)), (21, putDirent (blockFn d 21) (k + 2) (k + 1) [97])] 6 4096 8 d)), ?_, ?_, ?_, ?_, ?_, ?_⟩
  · unfold pairStep
    rw [show createImage noFault d [97] = do_create stdSB noFault d [97] from by
      unfold createImage
      rw [hsb]]
    rw [hcb]
    dsimp only
    rw [show installImage fuel (appendTx noFault [(17, setBitByte (blockFn d 17) (k + 1)), (20, initInodeSlot (blockFn d 20) (k + 1 - 32)), (19, bumpRootSize (blockFn d 19)), (21, putDirent (blockFn d 21) (k + 2) (k + 1) [97])] 6 4096 8 d) = do_install stdSB fuel (appendTx noFault [(17, setBitByte (blockFn d 17) (k + 1)), (20, initInodeSlot (blockFn d 20) (k + 1 - 32)), (19, bumpRootSize (blockFn d 19)), (21, putDirent (blockFn d 21) (k + 2) (k + 1) [97])] 6 4096 8 d) from by
      unfold installImage
      rw [hsbA]]
    rw [hinst]
  · refine (parseSB_congr d _ ?_).trans hsb
    intro a ha
    unfold clearJournal
    rw [writeBytesF_out _ _ _ _ _
      (Or.inl (by rw [show stdSB.journal_block * 4096 = 4096 from rfl]; omega))]
    rw [applyPending_cons, applyPending_cons, applyPending_cons, applyPending_cons,
      applyPending_nil]
    rw [if_pos (by decide), if_pos (by decide), if_pos (by decide), if_pos (by decide)]
    rw [writeBytesF_out _ _ _ _ _ (by omega)]
    rw [writeBytesF_out _ _ _ _ _ (by omega)]
    rw [writeBytesF_out _ _ _ _ _ (by omega)]
    rw [writeBytesF_out _ _ _ _ _ (by omega)]
    exact appendTx_out noFault [(17, setBitByte (blockFn d 17) (k + 1)), (20, initInodeSlot (blockFn d 20) (k + 1 - 32)), (19, bumpRootSize (blockFn d 19)), (21, putDirent (blockFn d 21) (k + 2) (k + 1) [97])] 6 4096 8 d (by norm_num) a (Or.inl (by omega))
  · unfold usedOf
    rw [jMagic_clearJournal, if_pos rfl, jUsed_clearJournal]
  · intro o ho
    show (clearJournal stdSB (applyPending stdSB (fun off => byteAt (appendTx noFault [(17, setBitByte (blockFn d 17) (k + 1)), (20, initInodeSlot (blockFn d 20) (k + 1 - 32)), (19, bumpRootSize (blockFn d 19)), (21, putDirent (blockFn d 21) (k + 2) (k + 1) [97])] 6 4096 8 d) (stdSB.journal_block * 4096 + off)) [(17, 16), (20, 4120), (19, 8224), (21, 12328)] (appendTx noFault [(17, setBitByte (blockFn d 17) (k + 1)), (20, initInodeSlot (blockFn d 20) (k + 1 - 32)), (19, bumpRootSize (blockFn d 19)), (21, putDirent (blockFn d 21) (k + 2) (k + 1) [97])] 6 4096 8 d))) (17 * 4096 + o) % 256 = ibmByteC9 (k + 1) o
    unfold clearJournal
    rw [writeBytesF_out _ _ _ _ _
      (Or.inr (by rw [show stdSB.journal_block * 4096 = 4096 from rfl]; omega))]
    rw [applyPending_cons, applyPending_cons, applyPending_cons, applyPending_cons,
      applyPending_nil]
    rw [if_pos (by decide), if_pos (by decide), if_pos (by decide), if_pos (by decide)]
    rw [writeBytesF_out _ _ _ _ _ (by omega)]
    rw [writeBytesF_out _ _ _ _ _ (by omega)]
    rw [writeBytesF_out _ _ _ _ _ (by omega)]
    rw [writeBytesF_in _ _ _ _ _ (by omega) (by omega)]
    rw [show 17 * 4096 + o - 17 * 4096 = o from by omega]
    show byteAt (appendTx noFault [(17, setBitByte (blockFn d 17) (k + 1)), (20, initInodeSlot (blockFn d 20) (k + 1 - 32)), (19, bumpRootSize (blockFn d 19)), (21, putDirent (blockFn d 21) (k + 2) (k + 1) [97])] 6 4096 8 d) (stdSB.journal_block * 4096 + (16 + o)) % 256 = ibmByteC9 (k + 1) o
    rw [show stdSB.journal_block * 4096 + (16 + o) = 4096 + 8 + (8 + o) from by
      rw [show stdSB.journal_block * 4096 = 4096 from rfl]
      omega]
    rw [hser (8 + o) (by omega)]
    rw [serJ_data_head _ _ _ _ (by omega), serDataBytes_payload]
    rw [Nat.mod_mod_of_dvd _ (dvd_refl 256)]
    unfold setBitByte
    by_cases hos : o = (k + 1) / 8
    · rw [if_pos hos, hibm o ho, hos, ibmByteC9_succ_eq]
      exact Nat.mod_eq_of_lt (ibmByteC9_lt _ _)
    · rw [if_neg hos, hibm o ho, ibmByteC9_succ_ne k o hos]
      exact Nat.mod_eq_of_lt (ibmByteC9_lt _ _)
  · intro o ho8 ho12
    show (clearJournal stdSB (applyPending stdSB (fun off => byteAt (appendTx noFault [(17, setBitByte (blockFn d 17) (k + 1)), (20, initInodeSlot (blockFn d 20) (k + 1 - 32)), (19, bumpRootSize (blockFn d 19)), (21, putDirent (blockFn d 21) (k + 2) (k + 1) [97])] 6 4096 8 d) (stdSB.journal_block * 4096 + off)) [(17, 16), (20, 4120), (19, 8224), (21, 12328)] (appendTx noFault [(17, setBitByte (blockFn d 17) (k + 1)), (20, initInodeSlot (blockFn d 20) (k + 1 - 32)), (19, bumpRootSize (blockFn d 19)), (21, putDirent (blockFn d 21) (k + 2) (k + 1) [97])] 6 4096 8 d))) (19 * 4096 + o) % 256 = if o = 8 then 21 else 0
    unfold clearJournal
    rw [writeBytesF_out _ _ _ _ _
      (Or.inr (by rw [show stdSB.journal_block * 4096 = 4096 from rfl]; omega))]
    rw [applyPending_cons, applyPending_cons, applyPending_cons, applyPending_cons,
      applyPending_nil]
    rw [if_pos (by decide), if_pos (by decide), if_pos (by decide), if_pos (by decide)]
    rw [writeBytesF_out _ _ _ _ _ (by omega)]
    rw [writeBytesF_in _ _ _ _ _ (by omega) (by omega)]
    rw [show 19 * 4096 + o - 19 * 4096 = o from by omega]
    show byteAt (appendTx noFault [(17, setBitByte (blockFn d 17) (k + 1)), (20, initInodeSlot (blockFn d 20) (k + 1 - 32)), (19, bumpRootSize (blockFn d 19)), (21, putDirent (blockFn d 21) (k + 2) (k + 1) [97])] 6 4096 8 d) (stdSB.journal_block * 4096 + (8224 + o)) % 256 = if o = 8 then 21 else 0
    rw [show stdSB.journal_block * 4096 + (8224 + o) = 4096 + 8 + (8216 + o) from by
      rw [show stdSB.journal_block * 4096 = 4096 from rfl]
      omega]
    rw [hser (8216 + o) (by omega)]
    rw [serJ_data_skip _ _ _ _ (by omega), show 8216 + o - 4104 = 4112 + o from by omega]
    rw [serJ_data_skip _ _ _ _ (by omega), show 4112 + o - 4104 = 8 + o from by omega]
    rw [serJ_data_head _ _ _ _ (by omega), serDataBytes_payload]
    rw [Nat.mod_mod_of_dvd _ (dvd_refl 256)]
    unfold bumpRootSize
    rw [if_neg (by omega)]
    rw [hroot o ho8 ho12]
    by_cases h8 : o = 8
    · rw [if_pos h8]
    · rw [if_neg h8]
  · intro e he jj hjj
    show (clearJournal stdSB (applyPending stdSB (fun off => byteAt (appendTx noFault [(17, setBitByte (blockFn d 17) (k + 1)), (20, initInodeSlot (blockFn d 20) (k + 1 - 32)), (19, bumpRootSize (blockFn d 19)), (21, putDirent (blockFn d 21) (k + 2) (k + 1) [97])] 6 4096 8 d) (stdSB.journal_block * 4096 + off)) [(17, 16), (20, 4120), (19, 8224), (21, 12328)] (appendTx noFault [(17, setBitByte (blockFn d 17) (k + 1)), (20, initInodeSlot (blockFn d 20) (k + 1 - 32)), (19, bumpRootSize (blockFn d 19)), (21, putDirent (blockFn d 21) (k + 2) (k + 1) [97])] 6 4096 8 d))) (21 * 4096 + (32 * e + jj)) % 256 = dirHeadByteC9 (k + 1) e jj
    unfold clearJournal
    rw [writeBytesF_out _ _ _ _ _
      (Or.inr (by rw [show stdSB.journal_block * 4096 = 4096 from rfl]; omega))]
    rw [applyPending_cons, applyPending_cons, applyPending_cons, applyPending_cons,
      applyPending_nil]
    rw [if_pos (by decide), if_pos (by decide), if_pos (by decide), if_pos (by decide)]
    rw [writeBytesF_in _ _ _ _ _ (by omega) (by omega)]
    rw [show 21 * 4096 + (32 * e + jj) - 21 * 4096 = 32 * e + jj from by omega]
    show byteAt (appendTx noFault [(17, setBitByte (blockFn d 17) (k + 1)), (20, initInodeSlot (blockFn d 20) (k + 1 - 32)), (19, bumpRootSize (blockFn d 19)), (21, putDirent (blockFn d 21) (k + 2) (k + 1) [97])] 6 4096 8 d) (stdSB.journal_block * 4096 + (12328 + (32 * e + jj))) % 256 =
      dirHeadByteC9 (k + 1) e jj
    rw [show stdSB.journal_block * 4096 + (12328 + (32 * e + jj)) =
        4096 + 8 + (12320 + (32 * e + jj)) from by
      rw [show stdSB.journal_block * 4096 = 4096 from rfl]
      omega]
    rw [hser (12320 + (32 * e + jj)) (by omega)]
    rw [serJ_data_skip _ _ _ _ (by omega),
      show 12320 + (32 * e + jj) - 4104 = 8216 + (32 * e + jj) from by omega]
    rw [serJ_data_skip _ _ _ _ (by omega),
      show 8216 + (32 * e + jj) - 4104 = 4112 + (32 * e + jj) from by omega]
    rw [serJ_data_skip _ _ _ _ (by omega),
      show 4112 + (32 * e + jj) - 4104 = 8 + (32 * e + jj) from by omega]
    rw [serJ_data_head _ _ _ _ (by omega), serDataBytes_payload]
    rw [Nat.mod_mod_of_dvd _ (dvd_refl 256)]
    unfold putDirent
    by_cases hekk : e = k + 2
    · subst hekk
      rw [if_pos (by omega)]
      by_cases hj4 : jj < 4
      · rw [if_pos (by omega)]
        rw [show 32 * (k + 2) + jj - 32 * (k + 2) = jj from by omega]
        unfold dirHeadByteC9
        rw [if_neg (by omega), if_pos (by omega), if_neg (by omega)]
        rw [show k + 2 - 1 = k + 1 from by omega]
        exact Nat.mod_eq_of_lt (le32byte_lt _ _)
      · have hj : jj = 4 := by omega
        subst hj
        rw [if_neg (by omega)]
        rw [show 32 * (k + 2) + 4 - (32 * (k + 2) + 4) = 0 from by omega]
        have hname : direntNameByte [97] 0 = 97 := by decide
        have hdh : dirHeadByteC9 (k + 1) (k + 2) 4 = 97 := by
          unfold dirHeadByteC9
          rw [if_neg (by omega), if_pos (by omega), if_pos rfl]
        rw [hname, hdh]
    · rw [if_neg (by omega)]
      rw [hdir e he jj hjj, dirHeadByteC9_succ_ne k e jj hekk]
      exact Nat.mod_eq_of_lt (dirHeadByteC9_lt _ _ _)

/-- One pair under the invariant. -/
theorem invC9_step (k : Nat) (hk : k ≤ 62) (fuel : Nat) (hfuel : 6 ≤ fuel)
    (d : Disk) (hInv : InvC9 k d) :
    ∃ d2, pairStep fuel d = some (k + 1, d2) ∧ InvC9 (k + 1) d2 := by
  by_cases hc : k + 1 < 32
  · exact stepA k hc fuel hfuel d hInv
  · exact stepB k (by omega) (by omega) fuel hfuel d hInv


/-- The invariant holds on the fresh `mkfs` image. -/
theorem invC9_base : InvC9 0 (mkfsDisk 0) := by
  refine ⟨by decide, by decide, by decide, ?_, by decide⟩
  intro o h1 h2
  interval_cases o <;> decide

/-- Running `N` pairs from any invariant state yields the ascending
indices `k+1, ..., k+N`. -/
theorem invC9_run (N : Nat) : ∀ (k : Nat) (d : Disk), k + N ≤ 63 → InvC9 k d →
    ∃ d2, pairRun 16 N d = some (List.range' (k + 1) N, d2) ∧ InvC9 (k + N) d2 := by
  induction N with
  | zero =>
    intro k d _ h
    exact ⟨d, by simp [pairRun], by simpa using h⟩
  | succ M ih =>
    intro k d hle hInv
    obtain ⟨d1, hstep, hInv1⟩ := invC9_step k (by omega) 16 (by omega) d hInv
    obtain ⟨d2, hrun, hInv2⟩ := ih (k + 1) d1 (by omega) hInv1
    refine ⟨d2, ?_, ?_⟩
    · simp only [pairRun, hstep, hrun]
      rw [List.range'_succ]
    · rw [show k + (M + 1) = k + 1 + M from by omega]
      exact hInv2


/-- C9.  The free-inode search of `do_create` scans ascending from
index 0 and returns the first index whose bitmap bit is clear (for
every bitmap content); consequently `N` consecutive `create`+`install`
pairs with fixed filename "a" on a fresh `mkfs` image assign inode
indices 1, 2, ..., N in strictly ascending order, index 0 being the
root. -/
theorem c9_create_assigns_lowest_free_inode_ascending :
    (∀ (bm : Nat → Nat) (count t : Nat), t < count →
      (∀ m, m < t → bm (m / 8) &&& (1 <<< (m % 8)) ≠ 0) →
      bm (t / 8) &&& (1 <<< (t % 8)) = 0 →
      findFreeInode bm count = some t) ∧
    (∀ N, N ≤ 63 → pairIndices 16 N (mkfsDisk 0) = some (List.range' 1 N)) := by
  constructor
  · intro bm count t h1 h2 h3
    unfold findFreeInode
    exact findFreeInodeAux_first bm count 0 t (Nat.zero_le t) (by omega)
      (fun m _ hm => h2 m hm) h3
  · intro N hN
    obtain ⟨d2, hrun, _⟩ := invC9_run N 0 (mkfsDisk 0) (by omega) invC9_base
    unfold pairIndices
    rw [hrun]
    rfl

/-- Witness for C9 at concrete inputs: on an all-`0b00000111` bitmap
the search returns index 3, and two pairs on the fresh image assign
indices 1 then 2. -/
theorem c9_witness :
    findFreeInode (fun _ => 7) 8 = some 3 ∧
    pairIndices 16 2 (mkfsDisk 0) = some [1, 2] := by
  refine ⟨c9_create_assigns_lowest_free_inode_ascending.1 (fun _ => 7) 8 3 (by decide)
    (by decide) (by decide), ?_⟩
  rw [c9_create_assigns_lowest_free_inode_ascending.2 2 (by decide)]
  rfl

end VSFS
